import Mathlib

/-! tiny_ticks: tick clock, timeout queue, dispatcher and blocking wait.

A shallow embedding of `tiny_ticks.h` / `tiny_ticks.c`.

* `tick_t` is `uint16_t`: tick values are naturals below `65536`, arithmetic on
  them is taken modulo `65536` where the C code can wrap.
* Event timeouts are `uint32_t`; the code only compares them, stores them and
  subtracts a strictly smaller value from them, so they are plain naturals.
* Function pointers are naturals, `0` being the null pointer.  What a pointer
  does when called is given by an environment `Env`.
* The program state together with the hardware timer is a `World`.  Time is
  the field `clock`; it advances by `elapse`, which also drives `TCNT0` and runs
  the overflow handler, before each clock read (by the amount the environment
  chooses) and inside callbacks.
* The `while (1)` loop of `tinyTicksDelayInTicks` is run with a bound on the
  number of iterations.
-/

namespace TinyTicks

/-! ## Tick reader (`tiny_ticks.h`) -/

/-- The modulus of `tick_t` (`uint16_t`). -/
abbrev TICK_MOD : Nat := 65536

/-- Reading the tick clock, `tinyTicks()` in `tiny_ticks.h`, as a function of the
snapshot taken with interrupts disabled: `acc` is `_t0_overflow`, `tmr` is
`TCNT0` and `flag` is the `TOV0` bit of the interrupt flag register. -/
def tinyTicks (acc tmr : Nat) (flag : Bool) : Nat :=
  let ret := acc % TICK_MOD
  let ret := if flag then (if tmr < 255 then (ret + 256) % TICK_MOD else ret) else ret
  (ret + tmr) % TICK_MOD

/-- The timer 0 overflow interrupt handler, `ISR(TIM0_OVF_vect)`, as a function
on `_t0_overflow`. -/
def isrTim0Ovf (acc : Nat) : Nat := (acc + 256) % TICK_MOD

/-- The elapsed-tick computation shared by `tinyTicksEventLoop` and
`tinyTicksDelayInTicks`: `cur - last` when `cur > last`, otherwise
`((tick_t)0xFFFFFFFF - last) + cur`, the result being stored in a `tick_t`. -/
def tickDiff (cur last : Nat) : Nat :=
  if cur > last then (cur - last) % TICK_MOD
  else ((0xFFFF - last) + cur) % TICK_MOD

/-! ## Event queue (`tiny_ticks.c`) -/

/-- The queue capacity, `TINY_TICKS_EVENT_QUEUE_MAX`. -/
abbrev TINY_TICKS_EVENT_QUEUE_MAX : Nat := 8

/-- One queue slot, `tinyTicksEvent_t`: the function pointer (`0` when the slot
is empty) and the ticks remaining. -/
structure Event where
  proc : Nat
  timeout : Nat
deriving DecidableEq, Repr

/-- The array `tinyEventQueue`. -/
abbrev Queue := Fin TINY_TICKS_EVENT_QUEUE_MAX → Event

/-- The slots of a queue in index order. -/
def Queue.slots (q : Queue) : List Event := (List.finRange TINY_TICKS_EVENT_QUEUE_MAX).map q

/-- The loop of `tinyTicksSetTimeoutInTicks` over the slot indices `idx`: the
first slot that is empty or holds `proc` is written and `1` is returned; `0` is
returned when the indices run out. -/
def setTimeoutScan (proc tickTimeout : Nat) (q : Queue) :
    List (Fin TINY_TICKS_EVENT_QUEUE_MAX) → Queue × Nat
  | [] => (q, 0)
  | i :: idx =>
    if (q i).proc = 0 ∨ (q i).proc = proc then
      (Function.update q i ⟨proc, tickTimeout⟩, 1)
    else setTimeoutScan proc tickTimeout q idx

/-- Registering an event, `tinyTicksSetTimeoutInTicks`: the new queue and the
returned `uint8_t`. -/
def tinyTicksSetTimeoutInTicks (q : Queue) (proc tickTimeout : Nat) : Queue × Nat :=
  setTimeoutScan proc tickTimeout q (List.finRange TINY_TICKS_EVENT_QUEUE_MAX)

/-- The number of occupied slots, `tinyTicksEventQueueDepth`. -/
def tinyTicksEventQueueDepth (q : Queue) : Nat :=
  (List.finRange TINY_TICKS_EVENT_QUEUE_MAX).foldl
    (fun ret i => if (q i).proc ≠ 0 then ret + 1 else ret) 0

/-- Emptying every slot, `tinyTicksClearEventQueue`. -/
def tinyTicksClearEventQueue (q : Queue) : Queue :=
  (List.finRange TINY_TICKS_EVENT_QUEUE_MAX).foldl
    (fun q i => Function.update q i ⟨0, 0⟩) q

/-- No non-empty callback reference occupies two slots. -/
def NoDuplicates (q : Queue) : Prop :=
  ∀ i j : Fin TINY_TICKS_EVENT_QUEUE_MAX, (q i).proc ≠ 0 → (q i).proc = (q j).proc → i = j

/-! ## Program state, hardware timer and callbacks -/

/-- A callback invocation made by the dispatcher or the waiter: the
per-iteration callback with its argument, or a queued event procedure. -/
inductive Call where
  | loop (proc diff : Nat)
  | event (proc : Nat)
deriving DecidableEq, Repr

/-- The globals of `tiny_ticks.c`, the registers of timer 0 that `tinyTicks`
reads, and the bookkeeping used to state the properties: `clock` is the number
of timer ticks since power-up, `polls` counts the clock reads made so far and
`calls` logs the callbacks invoked, oldest first. -/
structure World where
  tinyEventQueue : Queue
  tinyTicksEventLoopCallback : Nat
  _t0_overflow : Nat
  curTick : Nat
  lastTick : Nat
  TCNT0 : Nat
  TOV0 : Bool
  clock : Nat
  polls : Nat
  calls : List Call

/-- What surrounds the code: `proc p` is the effect of calling the event
procedure at address `p`, `loopCallback p diff` the effect of calling the
per-iteration callback at address `p` with argument `diff`, and `delay k` the
number of timer ticks that pass before the clock is read for the `k`-th time. -/
structure Env where
  proc : Nat → World → World
  loopCallback : Nat → Nat → World → World
  delay : Nat → Nat

/-- Timer 0 running for `d` ticks with its overflow interrupt enabled: `TCNT0`
counts modulo 256 and `ISR(TIM0_OVF_vect)` runs once for every wraparound. -/
def elapse (d : Nat) (w : World) : World :=
  { w with
    clock := w.clock + d
    TCNT0 := (w.TCNT0 + d) % 256
    _t0_overflow := isrTim0Ovf^[(w.TCNT0 + d) / 256] w._t0_overflow }

/-- The value `tinyTicks()` returns in world `w`. -/
def tickNow (w : World) : Nat := tinyTicks w._t0_overflow w.TCNT0 w.TOV0

/-- The statement `curTick = tinyTicks();`: the time the environment lets pass
before this read goes by, then the snapshot is stored. -/
def readTick (env : Env) (w : World) : World :=
  let w := elapse (env.delay w.polls) w
  { w with polls := w.polls + 1, curTick := tickNow w }

/-- Resetting the module, `tinyTicksInit` (the timer configuration registers
are not part of the state). -/
def tinyTicksInit (w : World) : World :=
  { w with
    _t0_overflow := 0
    tinyEventQueue := (List.finRange TINY_TICKS_EVENT_QUEUE_MAX).foldl
      (fun q i => Function.update q i ⟨0, 0⟩) w.tinyEventQueue
    lastTick := 0
    curTick := 0 }

/-- The statement `lastTick = curTick;`. -/
def logTick (w : World) : World := { w with lastTick := w.curTick }

/-- The statement `if (tinyTicksEventLoopCallback) (tinyTicksEventLoopCallback)(diff);`. -/
def runLoopCallback (env : Env) (diff : Nat) (w : World) : World :=
  if w.tinyTicksEventLoopCallback ≠ 0 then
    env.loopCallback w.tinyTicksEventLoopCallback diff
      { w with calls := w.calls ++ [Call.loop w.tinyTicksEventLoopCallback diff] }
  else w

/-- The body of the queue loop for slot `i`: an occupied slot whose timeout is
at most `diff` is emptied and then its procedure is called; any other occupied
slot has `diff` subtracted from its timeout. -/
def processSlot (env : Env) (diff : Nat) (i : Fin TINY_TICKS_EVENT_QUEUE_MAX) (w : World) :
    World :=
  if (w.tinyEventQueue i).proc ≠ 0 then
    if (w.tinyEventQueue i).timeout ≤ diff then
      let proc := (w.tinyEventQueue i).proc
      env.proc proc
        { w with
          tinyEventQueue := Function.update w.tinyEventQueue i ⟨0, 0⟩
          calls := w.calls ++ [Call.event proc] }
    else
      { w with
        tinyEventQueue := Function.update w.tinyEventQueue i
          ⟨(w.tinyEventQueue i).proc, (w.tinyEventQueue i).timeout - diff⟩ }
  else w

/-- The queue loop over the slot indices `idx`, each slot being read from the
state its predecessors (and the procedures they called) left. -/
def processQueue (env : Env) (diff : Nat) :
    List (Fin TINY_TICKS_EVENT_QUEUE_MAX) → World → World
  | [], w => w
  | i :: idx, w => processQueue env diff idx (processSlot env diff i w)

/-- One poll, `tinyTicksEventLoop`. -/
def tinyTicksEventLoop (env : Env) (w : World) : World :=
  let w := readTick env w
  if w.curTick ≠ w.lastTick then
    let diff := tickDiff w.curTick w.lastTick
    let w := logTick w
    let w := runLoopCallback env diff w
    processQueue env diff (List.finRange TINY_TICKS_EVENT_QUEUE_MAX) w
  else w

/-- How one iteration of the `while (1)` loop of `tinyTicksDelayInTicks` ends:
with a `return`, or at the end of the loop body with the local `tickTimeout`. -/
inductive Outcome where
  | returned (w : World)
  | again (tickTimeout : Nat) (w : World)

/-- One iteration of the `while (1)` loop of `tinyTicksDelayInTicks`. -/
def delayIteration (env : Env) (tickTimeout : Nat) (w : World) : Outcome :=
  let w := readTick env w
  if w.curTick ≠ w.lastTick then
    let diff := tickDiff w.curTick w.lastTick
    let w := logTick w
    if diff ≥ tickTimeout then Outcome.returned w
    else
      let tickTimeout := tickTimeout - diff
      let w := runLoopCallback env diff w
      let localLast := w.lastTick
      let w := processQueue env diff (List.finRange TINY_TICKS_EVENT_QUEUE_MAX) w
      if w.lastTick ≠ localLast then
        let diff := tickDiff w.lastTick localLast
        if diff ≥ tickTimeout then Outcome.returned w
        else Outcome.again (tickTimeout - diff) w
      else Outcome.again tickTimeout w
  else Outcome.again tickTimeout w

/-- The blocking wait `tinyTicksDelayInTicks`, run for at most `fuel`
iterations of its loop: `some w` when it returns in world `w`, `none` when it is
still looping after `fuel` iterations. -/
def tinyTicksDelayInTicks (env : Env) : Nat → Nat → World → Option World
  | 0, _, _ => none
  | fuel + 1, tickTimeout, w =>
    match delayIteration env tickTimeout w with
    | Outcome.returned w => some w
    | Outcome.again tickTimeout w => tinyTicksDelayInTicks env fuel tickTimeout w

/-! ## Auxiliary notions and the concrete inputs of the examples -/

/-- The queue with every slot empty. -/
def emptyQueue : Queue := fun _ => ⟨0, 0⟩

/-- A queue whose slot 0 is empty and whose slot 1 holds procedure `7` with `10`
ticks remaining. -/
def gapQueue : Queue :=
  ![⟨0, 0⟩, ⟨7, 10⟩, ⟨0, 0⟩, ⟨0, 0⟩, ⟨0, 0⟩, ⟨0, 0⟩, ⟨0, 0⟩, ⟨0, 0⟩]

/-- Registering a list of events one after the other, `tinyTicksSetTimeoutInTicks`
being called once per element: the final queue and the values returned. -/
def registerAll : Queue → List Event → Queue × List Nat
  | q, [] => (q, [])
  | q, e :: es =>
    let r := tinyTicksSetTimeoutInTicks q e.proc e.timeout
    let rest := registerAll r.1 es
    (rest.1, r.2 :: rest.2)

/-- The queue whose first slots hold the events of `evs`, the others being
empty. -/
def filledQueue (evs : List Event) : Queue := fun i => evs.getD i.val ⟨0, 0⟩

instance (q : Queue) : Decidable (NoDuplicates q) := by
  unfold NoDuplicates
  infer_instance

/-- Eight events with distinct procedures. -/
def eightEvents : List Event :=
  [⟨1, 10⟩, ⟨2, 20⟩, ⟨3, 30⟩, ⟨4, 40⟩, ⟨5, 50⟩, ⟨6, 60⟩, ⟨7, 70⟩, ⟨8, 80⟩]

/-- What the queue loop makes of a slot when nothing else writes the slot:
emptied when occupied and due, aged when occupied and not due, left alone when
empty. -/
def agedSlot (diff : Nat) (e : Event) : Event :=
  if e.proc ≠ 0 then
    if e.timeout ≤ diff then ⟨0, 0⟩ else ⟨e.proc, e.timeout - diff⟩
  else e

/-- The slot is occupied and due for the elapsed value `diff`. -/
def isDue (diff : Nat) (e : Event) : Bool := decide (e.proc ≠ 0 ∧ e.timeout ≤ diff)

/-- The called code `f` does not write the event queue and makes the dispatcher
invoke nothing. -/
def LeavesQueue (f : World → World) : Prop :=
  ∀ w, (f w).tinyEventQueue = w.tinyEventQueue ∧ (f w).calls = w.calls

/-- No callback of the environment touches the event queue. -/
def QuietCallbacks (env : Env) : Prop :=
  (∀ p, LeavesQueue (env.proc p)) ∧ (∀ p d, LeavesQueue (env.loopCallback p d))

/-- A world after `tinyTicksInit` at power-up, with events due in 5, 10 and 10
ticks queued in slots 0, 1 and 2. -/
def agingWorld : World :=
  { tinyEventQueue := ![⟨1, 5⟩, ⟨2, 10⟩, ⟨3, 10⟩, ⟨0, 0⟩, ⟨0, 0⟩, ⟨0, 0⟩, ⟨0, 0⟩, ⟨0, 0⟩]
    tinyTicksEventLoopCallback := 0
    _t0_overflow := 0
    curTick := 0
    lastTick := 0
    TCNT0 := 0
    TOV0 := false
    clock := 0
    polls := 0
    calls := [] }

/-- An environment whose callbacks do nothing and in which 7 ticks pass before
every clock read. -/
def idleEnv : Env :=
  { proc := fun _ w => w
    loopCallback := fun _ _ w => w
    delay := fun _ => 7 }

/-- The call `tinyTicksSetTimeoutInTicks(proc, tickTimeout)` as a step on the
world, its return value being ignored. -/
def setTimeoutIn (w : World) (proc tickTimeout : Nat) : World :=
  { w with tinyEventQueue := (tinyTicksSetTimeoutInTicks w.tinyEventQueue proc tickTimeout).1 }

/-- The procedure at address `cb` registers itself again with timeout `t` when
called, and otherwise leaves the queue and the invocation log alone. -/
def ReRegisters (env : Env) (cb t : Nat) : Prop :=
  ∀ w, (env.proc cb w).tinyEventQueue = (tinyTicksSetTimeoutInTicks w.tinyEventQueue cb t).1 ∧
    (env.proc cb w).calls = w.calls

/-- An environment in which procedure `2` re-registers itself with a timeout of
100 ticks, every other callback does nothing, and 7 ticks pass before every
clock read. -/
def rescheduleEnv : Env :=
  { proc := fun p w =>
      if p = 2 then setTimeoutIn w 2 100 else w
    loopCallback := fun _ _ w => w
    delay := fun _ => 7 }

/-- A world in which slot 0 holds an event not yet due after 7 ticks and slot 1
holds procedure `2`, due after 5 ticks. -/
def rescheduleWorld : World :=
  { tinyEventQueue := ![⟨1, 50⟩, ⟨2, 5⟩, ⟨3, 10⟩, ⟨0, 0⟩, ⟨0, 0⟩, ⟨0, 0⟩, ⟨0, 0⟩, ⟨0, 0⟩]
    tinyTicksEventLoopCallback := 0
    _t0_overflow := 0
    curTick := 0
    lastTick := 0
    TCNT0 := 0
    TOV0 := false
    clock := 0
    polls := 0
    calls := [] }

/-- The world is in step with the timer: no overflow is pending, the tick clock
reads `clock + phase` modulo `2^16`, and `lastTick` is the reading that was taken
at time `c`, which is not in the future. -/
def Synced (phase c : Nat) (w : World) : Prop :=
  c ≤ w.clock ∧ w.TOV0 = false ∧ tickNow w = (w.clock + phase) % TICK_MOD ∧
    w.lastTick = (c + phase) % TICK_MOD

/-- The called code `f` keeps the world in step with the timer: time may pass
while it runs, and if it moves `lastTick` then only to a later reading of the
clock (as the dispatcher and the waiter do). -/
def KeepsTime (f : World → World) : Prop :=
  ∀ phase c w, Synced phase c w → ∃ c', c ≤ c' ∧ Synced phase c' (f w)

/-- Every callback of the environment keeps the world in step with the timer. -/
def TimedCallbacks (env : Env) : Prop :=
  (∀ p, KeepsTime (env.proc p)) ∧ (∀ p d, KeepsTime (env.loopCallback p d))

/-- A world shortly after `tinyTicksInit`: `lastTick` is still 0, the queue is
empty, and the timer, which `tinyTicksInit` does not reset, reads 100. -/
def staleWorld : World :=
  { tinyEventQueue := emptyQueue
    tinyTicksEventLoopCallback := 0
    _t0_overflow := 0
    curTick := 0
    lastTick := 0
    TCNT0 := 100
    TOV0 := false
    clock := 100
    polls := 0
    calls := [] }

/-- An environment whose callbacks do nothing and in which one tick passes
before every clock read. -/
def tickEnv : Env :=
  { proc := fun _ w => w
    loopCallback := fun _ _ w => w
    delay := fun _ => 1 }

/-- An environment whose callbacks do nothing and in which no time passes before
a clock read. -/
def promptEnv : Env :=
  { proc := fun _ w => w
    loopCallback := fun _ _ w => w
    delay := fun _ => 0 }

/-- An environment in which procedure `1` takes 3 ticks and then polls the
dispatcher itself, every other callback does nothing, and 7 ticks pass before
every clock read of the waiter. -/
def busyEnv : Env :=
  { proc := fun p w => if p = 1 then tinyTicksEventLoop promptEnv (elapse 3 w) else w
    loopCallback := fun _ _ w => w
    delay := fun _ => 7 }

/-- A world whose `lastTick` equals the current tick, with procedure `1` due in
5 ticks. -/
def busyWorld : World :=
  { tinyEventQueue := ![⟨1, 5⟩, ⟨0, 0⟩, ⟨0, 0⟩, ⟨0, 0⟩, ⟨0, 0⟩, ⟨0, 0⟩, ⟨0, 0⟩, ⟨0, 0⟩]
    tinyTicksEventLoopCallback := 0
    _t0_overflow := 0
    curTick := 0
    lastTick := 0
    TCNT0 := 0
    TOV0 := false
    clock := 0
    polls := 0
    calls := [] }

/-- The world in which `tinyTicksDelayInTicks(20)` returns when called in
`busyWorld` under `busyEnv` (3 loop iterations suffice). -/
def busyResult : World := (tinyTicksDelayInTicks busyEnv 3 20 busyWorld).getD busyWorld

/-- The value of the local `tickTimeout` at the end of a loop iteration that did
not return. -/
def Outcome.remaining : Outcome → Option Nat
  | Outcome.returned _ => none
  | Outcome.again t _ => some t

/-- The world in which a loop iteration of `tinyTicksDelayInTicks` ends. -/
def Outcome.world : Outcome → World
  | Outcome.returned w => w
  | Outcome.again _ w => w

/-- The called code `f` makes the dispatcher invoke nothing: it does not poll. -/
def KeepsLog (f : World → World) : Prop := ∀ w, (f w).calls = w.calls

/-- No callback of the environment polls the dispatcher. -/
def PlainCallbacks (env : Env) : Prop :=
  (∀ p, KeepsLog (env.proc p)) ∧ (∀ p d, KeepsLog (env.loopCallback p d))

/-- The called code `f` does not move `lastTick`: it does not re-enter the
dispatcher or the waiter. -/
def KeepsLastTick (f : World → World) : Prop := ∀ w, (f w).lastTick = w.lastTick

/-- No callback of the environment re-enters the dispatcher. -/
def NoReentry (env : Env) : Prop :=
  (∀ p, KeepsLastTick (env.proc p)) ∧ (∀ p d, KeepsLastTick (env.loopCallback p d))

/-- In the first `n` iterations of the loop of `tinyTicksDelayInTicks` (fewer if
it returns earlier), every tick reading differs from the `lastTick` it is
compared with. -/
def keepsMoving (env : Env) : Nat → Nat → World → Bool
  | 0, _, _ => true
  | n + 1, tickTimeout, w =>
    decide ((readTick env w).curTick ≠ w.lastTick) &&
      match delayIteration env tickTimeout w with
      | Outcome.returned _ => true
      | Outcome.again tickTimeout w => keepsMoving env n tickTimeout w

/-- A bound on the number of clock reads a wait for `t` ticks needs when every
reading differs from `lastTick`, `last` being the value of `lastTick`. -/
def readsBound (t last : Nat) : Nat :=
  if t = 0 then 1 else 2 * t - 1 + (if last = 65535 then 1 else 0)

/-- A world in which the per-iteration callback `9` is registered, `lastTick`
equals the current tick, and procedure `1` is due at once. -/
def dueWorld : World :=
  { tinyEventQueue := ![⟨1, 0⟩, ⟨0, 0⟩, ⟨0, 0⟩, ⟨0, 0⟩, ⟨0, 0⟩, ⟨0, 0⟩, ⟨0, 0⟩, ⟨0, 0⟩]
    tinyTicksEventLoopCallback := 9
    _t0_overflow := 0
    curTick := 0
    lastTick := 0
    TCNT0 := 0
    TOV0 := false
    clock := 0
    polls := 0
    calls := [] }

/-- An environment whose callbacks do nothing and in which the clock does not
move before the first two reads and moves by one tick before every later one. -/
def lazyEnv : Env :=
  { proc := fun _ w => w
    loopCallback := fun _ _ w => w
    delay := fun k => if k < 2 then 0 else 1 }

/-- A world with an empty queue and no per-iteration callback whose `lastTick`
is `0xFFFF` while the clock reads `0xFFFF`. -/
def wrapWorld : World :=
  { tinyEventQueue := emptyQueue
    tinyTicksEventLoopCallback := 0
    _t0_overflow := 65280
    curTick := 65535
    lastTick := 65535
    TCNT0 := 255
    TOV0 := false
    clock := 65535
    polls := 0
    calls := [] }

/-- The called code `f` only adds to the invocation log: whatever it does,
polling the dispatcher included, the invocations made before it stay logged. -/
def ExtendsLog (f : World → World) : Prop := ∀ w, ∃ l, (f w).calls = w.calls ++ l

/-- Every callback of the environment only adds to the invocation log. -/
def LogOnlyGrows (env : Env) : Prop :=
  (∀ p, ExtendsLog (env.proc p)) ∧ (∀ p d, ExtendsLog (env.loopCallback p d))

/-- The world `busyWorld` with the per-iteration callback `9` registered. -/
def busyCallbackWorld : World := { busyWorld with tinyTicksEventLoopCallback := 9 }

/-! ## Facts about the tick reader and the elapsed-tick rule -/

theorem tickDiff_of_lt {cur last : Nat} (h : last < cur) (hc : cur < TICK_MOD) :
    tickDiff cur last = cur - last := by
  unfold tickDiff TICK_MOD at *
  rw [if_pos h]
  omega

theorem tickDiff_of_ge {cur last : Nat} (h : cur ≤ last) (hl : last < TICK_MOD) :
    tickDiff cur last = 65535 - last + cur := by
  unfold tickDiff TICK_MOD at *
  rw [if_neg (by omega)]
  omega

/-- Without a wraparound between the two samples the rule returns the ticks
elapsed. -/
theorem tickDiff_no_wrap (a e : Nat) (h : a + e < TICK_MOD) (he : 1 ≤ e) :
    tickDiff (a + e) a = e := by
  rw [tickDiff_of_lt (by omega) h]
  omega

/-- With a wraparound between the two samples the rule returns one tick less
than elapsed. -/
theorem tickDiff_wrap (a e : Nat) (ha : a < TICK_MOD) (he : e < TICK_MOD)
    (h : TICK_MOD ≤ a + e) : tickDiff ((a + e) % TICK_MOD) a = e - 1 := by
  unfold TICK_MOD at *
  rw [tickDiff_of_ge (by omega) ha]
  omega

/-- C1, at the failing input: the sample `a = 65535` followed one tick later by
the sample `b = (65535 + 1) mod 65536 = 0` gives the elapsed value `0`, not `1`. -/
theorem tickDiff_one_tick_across_wrap :
    (65535 + 1) % TICK_MOD = 0 ∧ tickDiff 0 65535 = 0 ∧ tickDiff 0 65535 ≠ 1 := by
  decide

/-- C2: `tinyTicks` returns `(acc + 256 + tmr) mod 2^16` when the overflow flag
is set and the counter is below 255, and `(acc + tmr) mod 2^16` otherwise. -/
theorem tinyTicks_value (acc tmr : Nat) (flag : Bool) :
    tinyTicks acc tmr flag =
      if flag = true ∧ tmr < 255 then (acc + 256 + tmr) % 65536 else (acc + tmr) % 65536 := by
  unfold tinyTicks TICK_MOD
  cases flag
  · simp only [Bool.false_eq_true, false_and, reduceIte]
    omega
  · by_cases h : tmr < 255
    · simp only [h, and_self, reduceIte]
      omega
    · simp only [h, and_false, reduceIte]
      omega

/-! ## Facts about the event queue -/

theorem finRange_queue :
    List.finRange TINY_TICKS_EVENT_QUEUE_MAX = [0, 1, 2, 3, 4, 5, 6, 7] := by
  decide

theorem setTimeoutScan_snd_eq_zero_iff (proc t : Nat) (q : Queue)
    (l : List (Fin TINY_TICKS_EVENT_QUEUE_MAX)) :
    (setTimeoutScan proc t q l).2 = 0 ↔ ∀ i ∈ l, (q i).proc ≠ 0 ∧ (q i).proc ≠ proc := by
  induction l with
  | nil => simp [setTimeoutScan]
  | cons a l ih =>
    by_cases h : (q a).proc = 0 ∨ (q a).proc = proc
    · simp only [setTimeoutScan, if_pos h, List.mem_cons, forall_eq_or_imp]
      constructor
      · intro h1; exact absurd h1 (by decide)
      · intro h1; exact absurd h (by simp [h1.1.1, h1.1.2])
    · simp only [setTimeoutScan, if_neg h, List.mem_cons, forall_eq_or_imp, ih]
      constructor
      · intro h1; exact ⟨by simpa [not_or] using h, h1⟩
      · intro h1; exact h1.2

theorem setTimeoutScan_snd_cases (proc t : Nat) (q : Queue)
    (l : List (Fin TINY_TICKS_EVENT_QUEUE_MAX)) :
    (setTimeoutScan proc t q l).2 = 0 ∨ (setTimeoutScan proc t q l).2 = 1 := by
  induction l with
  | nil => simp [setTimeoutScan]
  | cons a l ih =>
    by_cases h : (q a).proc = 0 ∨ (q a).proc = proc
    · simp [setTimeoutScan, if_pos h]
    · simpa [setTimeoutScan, if_neg h] using ih

theorem setTimeoutScan_fst_of_fail (proc t : Nat) (q : Queue)
    (l : List (Fin TINY_TICKS_EVENT_QUEUE_MAX))
    (h : (setTimeoutScan proc t q l).2 = 0) : (setTimeoutScan proc t q l).1 = q := by
  induction l with
  | nil => simp [setTimeoutScan]
  | cons a l ih =>
    by_cases hc : (q a).proc = 0 ∨ (q a).proc = proc
    · simp [setTimeoutScan, if_pos hc] at h
    · simp only [setTimeoutScan, if_neg hc] at h ⊢
      exact ih h

/-- A slot that is neither empty nor holds `proc` is left alone by the scan. -/
theorem setTimeoutScan_apply_of_not (proc t : Nat) (q : Queue)
    (l : List (Fin TINY_TICKS_EVENT_QUEUE_MAX)) (a : Fin TINY_TICKS_EVENT_QUEUE_MAX)
    (ha : ¬((q a).proc = 0 ∨ (q a).proc = proc)) : (setTimeoutScan proc t q l).1 a = q a := by
  induction l with
  | nil => simp [setTimeoutScan]
  | cons b l ih =>
    by_cases hc : (q b).proc = 0 ∨ (q b).proc = proc
    · have hne : a ≠ b := by
        intro hab
        exact ha (hab ▸ hc)
      simp [setTimeoutScan, if_pos hc, Function.update_noteq hne]
    · simpa [setTimeoutScan, if_neg hc] using ih

/-- The scan over an increasing list of indices writes the least index whose
slot is empty or holds `proc`. -/
theorem setTimeoutScan_first (proc t : Nat) (q : Queue)
    (l : List (Fin TINY_TICKS_EVENT_QUEUE_MAX)) (i : Fin TINY_TICKS_EVENT_QUEUE_MAX)
    (hl : l.Pairwise (· < ·)) (hi : i ∈ l)
    (hc : (q i).proc = 0 ∨ (q i).proc = proc)
    (hfirst : ∀ j, j < i → ¬((q j).proc = 0 ∨ (q j).proc = proc)) :
    setTimeoutScan proc t q l = (Function.update q i ⟨proc, t⟩, 1) := by
  induction l with
  | nil => simp at hi
  | cons a l ih =>
    rcases List.mem_cons.mp hi with rfl | hmem
    · simp [setTimeoutScan, if_pos hc]
    · have hlt : a < i := (List.pairwise_cons.mp hl).1 i hmem
      simp only [setTimeoutScan, if_neg (hfirst a hlt)]
      exact ih (List.pairwise_cons.mp hl).2 hmem

theorem tinyTicksSetTimeoutInTicks_first (q : Queue) (proc t : Nat)
    (i : Fin TINY_TICKS_EVENT_QUEUE_MAX)
    (hc : (q i).proc = 0 ∨ (q i).proc = proc)
    (hfirst : ∀ j, j < i → ¬((q j).proc = 0 ∨ (q j).proc = proc)) :
    tinyTicksSetTimeoutInTicks q proc t = (Function.update q i ⟨proc, t⟩, 1) :=
  setTimeoutScan_first proc t q _ i (List.pairwise_lt_finRange _) (List.mem_finRange i) hc hfirst

theorem tinyTicksSetTimeoutInTicks_fail_iff (q : Queue) (proc t : Nat) :
    (tinyTicksSetTimeoutInTicks q proc t).2 = 0 ↔
      ∀ i, (q i).proc ≠ 0 ∧ (q i).proc ≠ proc := by
  unfold tinyTicksSetTimeoutInTicks
  rw [setTimeoutScan_snd_eq_zero_iff]
  constructor
  · intro h i; exact h i (List.mem_finRange i)
  · intro h i _; exact h i

theorem tinyTicksSetTimeoutInTicks_of_fail (q : Queue) (proc t : Nat)
    (h : (tinyTicksSetTimeoutInTicks q proc t).2 = 0) :
    tinyTicksSetTimeoutInTicks q proc t = (q, 0) := by
  have h1 := setTimeoutScan_fst_of_fail proc t q _ h
  exact Prod.ext h1 h

theorem setTimeoutScan_twice (proc t1 t2 : Nat) (q : Queue)
    (l : List (Fin TINY_TICKS_EVENT_QUEUE_MAX)) :
    setTimeoutScan proc t2 (setTimeoutScan proc t1 q l).1 l = setTimeoutScan proc t2 q l := by
  induction l with
  | nil => simp [setTimeoutScan]
  | cons a l ih =>
    by_cases hc : (q a).proc = 0 ∨ (q a).proc = proc
    · simp [setTimeoutScan, if_pos hc]
    · have ha := setTimeoutScan_apply_of_not proc t1 q l a hc
      simp only [setTimeoutScan, if_neg hc, ha]
      exact ih

theorem foldl_count (p : Fin TINY_TICKS_EVENT_QUEUE_MAX → Prop) [DecidablePred p]
    (l : List (Fin TINY_TICKS_EVENT_QUEUE_MAX)) (n : Nat) :
    l.foldl (fun ret i => if p i then ret + 1 else ret) n = n + (l.filter (fun i => p i)).length := by
  induction l generalizing n with
  | nil => simp
  | cons a l ih =>
    by_cases h : p a
    · simp only [List.foldl_cons, if_pos h, ih, List.filter_cons, h, decide_True, if_true,
        List.length_cons]
      omega
    · simp only [List.foldl_cons, if_neg h, ih, List.filter_cons, h, decide_False]
      simp

theorem depth_eq (q : Queue) :
    tinyTicksEventQueueDepth q =
      ((List.finRange TINY_TICKS_EVENT_QUEUE_MAX).filter (fun i => (q i).proc ≠ 0)).length := by
  unfold tinyTicksEventQueueDepth
  rw [foldl_count (fun i => (q i).proc ≠ 0)]
  simp

theorem foldl_clear (l : List (Fin TINY_TICKS_EVENT_QUEUE_MAX)) (q : Queue)
    (j : Fin TINY_TICKS_EVENT_QUEUE_MAX) :
    l.foldl (fun q i => Function.update q i (⟨0, 0⟩ : Event)) q j =
      if j ∈ l then ⟨0, 0⟩ else q j := by
  induction l generalizing q with
  | nil => simp
  | cons a l ih =>
    rw [List.foldl_cons, ih]
    by_cases h1 : j ∈ l
    · simp [h1]
    · by_cases h2 : j = a
      · subst h2
        simp [h1]
      · simp [h1, h2, Function.update_noteq h2]

theorem tinyTicksClearEventQueue_eq (q : Queue) : tinyTicksClearEventQueue q = emptyQueue := by
  funext j
  unfold tinyTicksClearEventQueue emptyQueue
  rw [foldl_clear, if_pos (List.mem_finRange j)]

theorem filledQueue_nil : filledQueue [] = emptyQueue := by
  funext i
  simp [filledQueue, emptyQueue]

theorem filledQueue_snoc (pre : List Event) (e : Event)
    (h : pre.length < TINY_TICKS_EVENT_QUEUE_MAX) :
    Function.update (filledQueue pre) ⟨pre.length, h⟩ e = filledQueue (pre ++ [e]) := by
  funext j
  unfold filledQueue
  by_cases hj : j = ⟨pre.length, h⟩
  · subst hj
    simp [List.getD_eq_getElem?_getD]
  · rw [Function.update_noteq hj]
    have hne : j.val ≠ pre.length := fun hv => hj (Fin.ext hv)
    rcases Nat.lt_or_gt_of_ne hne with hlt | hgt
    · simp [List.getD_eq_getElem?_getD, List.getElem?_append_left hlt]
    · have h1 : pre.length ≤ j.val := by omega
      simp only [List.getD_eq_getElem?_getD]
      rw [List.getElem?_eq_none (by omega), List.getElem?_eq_none (by simp; omega)]

theorem registerAll_fill (evs pre : List Event)
    (hlen : (pre ++ evs).length ≤ TINY_TICKS_EVENT_QUEUE_MAX)
    (hnd : ((pre ++ evs).map Event.proc).Nodup)
    (hnz : ∀ e ∈ pre ++ evs, e.proc ≠ 0) :
    registerAll (filledQueue pre) evs =
      (filledQueue (pre ++ evs), List.replicate evs.length 1) := by
  induction evs generalizing pre with
  | nil => simp [registerAll]
  | cons e es ih =>
    have hk : pre.length < TINY_TICKS_EVENT_QUEUE_MAX := by
      simp only [List.length_append, List.length_cons] at hlen
      omega
    have hreg : tinyTicksSetTimeoutInTicks (filledQueue pre) e.proc e.timeout =
        (Function.update (filledQueue pre) ⟨pre.length, hk⟩ ⟨e.proc, e.timeout⟩, 1) := by
      apply tinyTicksSetTimeoutInTicks_first
      · left
        simp [filledQueue, List.getD_eq_getElem?_getD]
      · intro j hj
        have hjl : j.val < pre.length := hj
        have hget : filledQueue pre j = pre[j.val] := by
          simp [filledQueue, List.getD_eq_getElem?_getD, List.getElem?_eq_getElem hjl]
        have hmem : pre[j.val] ∈ pre := List.getElem_mem hjl
        rw [hget]
        intro hor
        rcases hor with h0 | he
        · exact hnz _ (List.mem_append_left _ hmem) h0
        · rw [List.map_append, List.nodup_append] at hnd
          exact hnd.2.2 (List.mem_map_of_mem Event.proc hmem)
            (by rw [he]; simp)
    have hassoc : (pre ++ [e]) ++ es = pre ++ e :: es := by simp
    have hih := ih (pre ++ [e]) (by rw [hassoc]; exact hlen) (by rw [hassoc]; exact hnd)
      (by rw [hassoc]; exact hnz)
    have hsn := filledQueue_snoc pre ⟨e.proc, e.timeout⟩ hk
    simp only [registerAll, hreg]
    rw [hsn, hih, hassoc]
    simp [List.replicate_succ]

theorem filledQueue_slots (evs : List Event) (h : evs.length = TINY_TICKS_EVENT_QUEUE_MAX) :
    (filledQueue evs).slots = evs := by
  apply List.ext_getElem
  · simp [Queue.slots, h]
  · intro n h1 h2
    simp [Queue.slots, filledQueue, List.getD_eq_getElem?_getD, List.getElem?_eq_getElem h2]

theorem setTimeoutScan_cases (proc t : Nat) (q : Queue)
    (l : List (Fin TINY_TICKS_EVENT_QUEUE_MAX)) :
    setTimeoutScan proc t q l = (q, 0) ∨
    ∃ j, ((q j).proc = 0 ∨ (q j).proc = proc) ∧
      setTimeoutScan proc t q l = (Function.update q j ⟨proc, t⟩, 1) := by
  induction l with
  | nil => left; rfl
  | cons a l ih =>
    by_cases hc : (q a).proc = 0 ∨ (q a).proc = proc
    · right
      exact ⟨a, hc, by simp [setTimeoutScan, if_pos hc]⟩
    · simpa only [setTimeoutScan, if_neg hc] using ih

/-- Emptying the queue leaves no duplicate. -/
theorem noDuplicates_clear (q : Queue) : NoDuplicates (tinyTicksClearEventQueue q) := by
  rw [tinyTicksClearEventQueue_eq]
  intro i j h
  exact absurd rfl h

/-- Registering a callback that no slot holds keeps the queue free of
duplicates. -/
theorem noDuplicates_register_absent (q : Queue) (proc t : Nat) (hnd : NoDuplicates q)
    (habs : ∀ j, (q j).proc ≠ proc) :
    NoDuplicates (tinyTicksSetTimeoutInTicks q proc t).1 := by
  rcases setTimeoutScan_cases proc t q (List.finRange TINY_TICKS_EVENT_QUEUE_MAX) with h | h
  · unfold tinyTicksSetTimeoutInTicks
    rw [h]
    exact hnd
  · obtain ⟨j, _, hj⟩ := h
    unfold tinyTicksSetTimeoutInTicks
    rw [hj]
    show NoDuplicates (Function.update q j ⟨proc, t⟩)
    intro a b hne heq
    by_cases ha : a = j
    · by_cases hb : b = j
      · rw [ha, hb]
      · subst ha
        rw [Function.update_same, Function.update_noteq hb] at heq
        exact absurd heq.symm (habs b)
    · by_cases hb : b = j
      · subst hb
        rw [Function.update_same, Function.update_noteq ha] at heq
        exact absurd heq (habs a)
      · rw [Function.update_noteq ha] at hne heq
        rw [Function.update_noteq hb] at heq
        exact hnd a b hne heq

/-! ## The claims about the event queue -/

/-- C3, at the failing input: the queue `gapQueue` has no duplicate callback
(procedure `7` sits in slot 1 only, slot 0 is empty); registering procedure `7`
again succeeds by claiming slot 0, so that `7` then occupies slots 0 and 1 and
the depth goes from 1 to 2. -/
theorem register_after_gap_duplicates :
    NoDuplicates gapQueue ∧ tinyTicksEventQueueDepth gapQueue = 1 ∧
    (tinyTicksSetTimeoutInTicks gapQueue 7 5).2 = 1 ∧
    (tinyTicksSetTimeoutInTicks gapQueue 7 5).1.slots =
      [⟨7, 5⟩, ⟨7, 10⟩, ⟨0, 0⟩, ⟨0, 0⟩, ⟨0, 0⟩, ⟨0, 0⟩, ⟨0, 0⟩, ⟨0, 0⟩] ∧
    tinyTicksEventQueueDepth (tinyTicksSetTimeoutInTicks gapQueue 7 5).1 = 2 ∧
    ¬ NoDuplicates (tinyTicksSetTimeoutInTicks gapQueue 7 5).1 := by
  decide

/-- C4: `tinyTicksSetTimeoutInTicks` returns 0 exactly when no slot is empty and
no slot holds the callback, and then the queue is unchanged; after registering
eight distinct non-null callbacks into the empty queue (each registration
returning 1 and the slots holding the eight events in order), registering a
ninth distinct callback returns 0 and leaves the queue as it was. -/
theorem register_fails_iff_full (q : Queue) (proc t : Nat) :
    ((tinyTicksSetTimeoutInTicks q proc t).2 = 0 ↔
      ∀ i, (q i).proc ≠ 0 ∧ (q i).proc ≠ proc) ∧
    ((tinyTicksSetTimeoutInTicks q proc t).2 = 0 →
      (tinyTicksSetTimeoutInTicks q proc t).1 = q) ∧
    (∀ (evs : List Event) (p9 t9 : Nat),
      evs.length = TINY_TICKS_EVENT_QUEUE_MAX → (evs.map Event.proc).Nodup →
      (∀ e ∈ evs, e.proc ≠ 0) → p9 ∉ evs.map Event.proc →
      (registerAll emptyQueue evs).2 = List.replicate TINY_TICKS_EVENT_QUEUE_MAX 1 ∧
      (registerAll emptyQueue evs).1.slots = evs ∧
      tinyTicksSetTimeoutInTicks (registerAll emptyQueue evs).1 p9 t9 =
        ((registerAll emptyQueue evs).1, 0)) := by
  refine ⟨tinyTicksSetTimeoutInTicks_fail_iff q proc t, ?_, ?_⟩
  · intro h
    rw [tinyTicksSetTimeoutInTicks_of_fail q proc t h]
  · intro evs p9 t9 hlen hnd hnz h9
    have hall := registerAll_fill evs [] (by simp [hlen]) (by simpa using hnd)
      (by simpa using hnz)
    rw [filledQueue_nil] at hall
    simp only [List.nil_append] at hall
    rw [hall]
    refine ⟨by simp [hlen], filledQueue_slots evs hlen, ?_⟩
    apply tinyTicksSetTimeoutInTicks_of_fail
    rw [tinyTicksSetTimeoutInTicks_fail_iff]
    intro i
    have hi : i.val < evs.length := by rw [hlen]; exact i.isLt
    have hget : filledQueue evs i = evs[i.val] := by
      simp [filledQueue, List.getD_eq_getElem?_getD, List.getElem?_eq_getElem hi]
    have hmem : evs[i.val] ∈ evs := List.getElem_mem hi
    show (filledQueue evs i).proc ≠ 0 ∧ (filledQueue evs i).proc ≠ p9
    rw [hget]
    exact ⟨hnz _ hmem, fun he => h9 (he ▸ List.mem_map_of_mem Event.proc hmem)⟩

/-- C4 on a concrete run: the eight events of `eightEvents` fill the empty queue
and procedure `9` is then refused. -/
theorem register_fails_iff_full_witness :
    (eightEvents.length = TINY_TICKS_EVENT_QUEUE_MAX ∧ (eightEvents.map Event.proc).Nodup ∧
      (∀ e ∈ eightEvents, e.proc ≠ 0) ∧ 9 ∉ eightEvents.map Event.proc) ∧
    (registerAll emptyQueue eightEvents).2 = List.replicate TINY_TICKS_EVENT_QUEUE_MAX 1 ∧
    (registerAll emptyQueue eightEvents).1.slots = eightEvents ∧
    tinyTicksSetTimeoutInTicks (registerAll emptyQueue eightEvents).1 9 90 =
      ((registerAll emptyQueue eightEvents).1, 0) :=
  ⟨by decide,
    (register_fails_iff_full emptyQueue 0 0).2.2 eightEvents 9 90 (by decide) (by decide)
      (by decide) (by decide)⟩

/-- C5: registering the same callback twice gives the queue and return value of
the second registration alone; from the empty queue and a non-null callback the
result has depth 1, slot 0 holds the callback with the second timeout and every
other slot is empty. -/
theorem register_twice_last_wins (q : Queue) (cb t1 t2 : Nat) :
    tinyTicksSetTimeoutInTicks (tinyTicksSetTimeoutInTicks q cb t1).1 cb t2 =
      tinyTicksSetTimeoutInTicks q cb t2 ∧
    (cb ≠ 0 →
      tinyTicksEventQueueDepth
        (tinyTicksSetTimeoutInTicks (tinyTicksSetTimeoutInTicks emptyQueue cb t1).1 cb t2).1 = 1 ∧
      (tinyTicksSetTimeoutInTicks (tinyTicksSetTimeoutInTicks emptyQueue cb t1).1 cb t2).1.slots =
        [⟨cb, t2⟩, ⟨0, 0⟩, ⟨0, 0⟩, ⟨0, 0⟩, ⟨0, 0⟩, ⟨0, 0⟩, ⟨0, 0⟩, ⟨0, 0⟩]) := by
  have htwice : ∀ q : Queue,
      tinyTicksSetTimeoutInTicks (tinyTicksSetTimeoutInTicks q cb t1).1 cb t2 =
        tinyTicksSetTimeoutInTicks q cb t2 := fun q => setTimeoutScan_twice cb t1 t2 q _
  refine ⟨htwice q, ?_⟩
  intro hcb
  rw [htwice emptyQueue]
  have h0 : tinyTicksSetTimeoutInTicks emptyQueue cb t2 =
      (Function.update emptyQueue 0 ⟨cb, t2⟩, 1) := by
    apply tinyTicksSetTimeoutInTicks_first
    · left; rfl
    · intro j hj
      exact absurd hj (by simp)
  rw [h0]
  constructor
  · rw [depth_eq, finRange_queue]
    simp [List.filter, Function.update, emptyQueue, hcb]
  · simp [Queue.slots, finRange_queue, Function.update, emptyQueue]

/-- C5 on a concrete run: procedure `3` registered with 10 and then with 25
ticks. -/
theorem register_twice_last_wins_witness :
    (3 : Nat) ≠ 0 ∧
    tinyTicksEventQueueDepth
        (tinyTicksSetTimeoutInTicks (tinyTicksSetTimeoutInTicks emptyQueue 3 10).1 3 25).1 = 1 ∧
      (tinyTicksSetTimeoutInTicks (tinyTicksSetTimeoutInTicks emptyQueue 3 10).1 3 25).1.slots =
        [⟨3, 25⟩, ⟨0, 0⟩, ⟨0, 0⟩, ⟨0, 0⟩, ⟨0, 0⟩, ⟨0, 0⟩, ⟨0, 0⟩, ⟨0, 0⟩] :=
  ⟨by decide, (register_twice_last_wins emptyQueue 3 10 25).2 (by decide)⟩

/-! ## Facts about the queue loop -/

theorem processQueue_append (env : Env) (diff : Nat)
    (l1 l2 : List (Fin TINY_TICKS_EVENT_QUEUE_MAX)) (w : World) :
    processQueue env diff (l1 ++ l2) w = processQueue env diff l2 (processQueue env diff l1 w) := by
  induction l1 generalizing w with
  | nil => rfl
  | cons a l ih =>
    show processQueue env diff (l ++ l2) (processSlot env diff a w) = _
    rw [ih]
    rfl

theorem processSlot_quiet (env : Env) (diff : Nat) (i : Fin TINY_TICKS_EVENT_QUEUE_MAX)
    (w : World) (h : LeavesQueue (env.proc (w.tinyEventQueue i).proc)) :
    (processSlot env diff i w).tinyEventQueue =
        Function.update w.tinyEventQueue i (agedSlot diff (w.tinyEventQueue i)) ∧
    (processSlot env diff i w).calls =
        w.calls ++ (if isDue diff (w.tinyEventQueue i) = true
          then [Call.event (w.tinyEventQueue i).proc] else []) := by
  unfold processSlot agedSlot isDue
  by_cases h1 : (w.tinyEventQueue i).proc ≠ 0
  · by_cases h2 : (w.tinyEventQueue i).timeout ≤ diff
    · simp only [h1, h2, if_true, ne_eq, not_false_eq_true, and_self, decide_True]
      exact ⟨(h _).1, (h _).2⟩
    · simp [h1, h2]
  · simp only [h1, if_false, false_and, decide_False, Bool.false_eq_true, List.append_nil,
      and_true]
    exact (Function.update_eq_self i w.tinyEventQueue).symm

/-- The queue loop when none of the procedures it calls touches the queue: each
visited slot is aged on its own, and the procedures of the due slots are invoked
once each in the order of the visit. -/
theorem processQueue_quiet (env : Env) (diff : Nat)
    (l : List (Fin TINY_TICKS_EVENT_QUEUE_MAX)) (hl : l.Nodup) (w : World)
    (h : ∀ i ∈ l, LeavesQueue (env.proc (w.tinyEventQueue i).proc)) :
    (∀ j, (processQueue env diff l w).tinyEventQueue j =
        if j ∈ l then agedSlot diff (w.tinyEventQueue j) else w.tinyEventQueue j) ∧
    (processQueue env diff l w).calls =
        w.calls ++ (l.filter (fun i => isDue diff (w.tinyEventQueue i))).map
          (fun i => Call.event (w.tinyEventQueue i).proc) := by
  induction l generalizing w with
  | nil => simp [processQueue]
  | cons a l ih =>
    have hal : a ∉ l := (List.nodup_cons.mp hl).1
    have hs := processSlot_quiet env diff a w (h a (List.mem_cons_self a l))
    have hsame : ∀ i ∈ l, (processSlot env diff a w).tinyEventQueue i = w.tinyEventQueue i := by
      intro i hi
      have hne : i ≠ a := fun hia => hal (hia ▸ hi)
      rw [hs.1, Function.update_noteq hne]
    have hih := ih (List.nodup_cons.mp hl).2 (processSlot env diff a w) (by
      intro i hi
      rw [hsame i hi]
      exact h i (List.mem_cons_of_mem a hi))
    constructor
    · intro j
      simp only [processQueue]
      rw [hih.1 j]
      by_cases hj : j ∈ l
      · rw [if_pos hj, if_pos (List.mem_cons_of_mem a hj), hsame j hj]
      · rw [if_neg hj, hs.1]
        by_cases hja : j = a
        · subst hja
          simp
        · rw [Function.update_noteq hja, if_neg (by simp [hja, hj])]
    · simp only [processQueue]
      rw [hih.2, hs.2]
      have hf : l.filter (fun i => isDue diff ((processSlot env diff a w).tinyEventQueue i)) =
          l.filter (fun i => isDue diff (w.tinyEventQueue i)) := by
        apply List.filter_congr
        intro i hi
        rw [hsame i hi]
      have hm : ∀ l' : List (Fin TINY_TICKS_EVENT_QUEUE_MAX), (∀ i ∈ l', i ∈ l) →
          l'.map (fun i => Call.event ((processSlot env diff a w).tinyEventQueue i).proc) =
          l'.map (fun i => Call.event (w.tinyEventQueue i).proc) := by
        intro l' hl'
        apply List.map_congr_left
        intro i hi
        rw [hsame i (hl' i hi)]
      rw [hf, hm _ (fun i hi => (List.mem_filter.mp hi).1)]
      by_cases hd : isDue diff (w.tinyEventQueue a) = true
      · simp [List.filter_cons, hd]
      · simp [List.filter_cons, hd]

theorem readTick_frame (env : Env) (w : World) :
    (readTick env w).tinyEventQueue = w.tinyEventQueue ∧
    (readTick env w).lastTick = w.lastTick ∧
    (readTick env w).calls = w.calls ∧
    (readTick env w).tinyTicksEventLoopCallback = w.tinyTicksEventLoopCallback := by
  simp [readTick, elapse]

theorem runLoopCallback_quiet (env : Env) (diff : Nat) (w : World)
    (h : ∀ p d, LeavesQueue (env.loopCallback p d)) :
    (runLoopCallback env diff w).tinyEventQueue = w.tinyEventQueue ∧
    (runLoopCallback env diff w).calls =
      w.calls ++ (if w.tinyTicksEventLoopCallback ≠ 0
        then [Call.loop w.tinyTicksEventLoopCallback diff] else []) := by
  unfold runLoopCallback
  by_cases hc : w.tinyTicksEventLoopCallback ≠ 0
  · simp only [hc, if_true, ne_eq, not_false_eq_true]
    exact ⟨(h _ _ _).1, (h _ _ _).2⟩
  · simp [hc]

theorem logTick_frame (w : World) :
    (logTick w).tinyEventQueue = w.tinyEventQueue ∧
    (logTick w).calls = w.calls ∧
    (logTick w).tinyTicksEventLoopCallback = w.tinyTicksEventLoopCallback ∧
    (logTick w).lastTick = w.curTick ∧
    (logTick w).clock = w.clock := by
  simp [logTick]

theorem tinyTicksEventLoop_of_ne (env : Env) (w : World)
    (hne : (readTick env w).curTick ≠ w.lastTick) :
    tinyTicksEventLoop env w =
      processQueue env (tickDiff (readTick env w).curTick w.lastTick)
        (List.finRange TINY_TICKS_EVENT_QUEUE_MAX)
        (runLoopCallback env (tickDiff (readTick env w).curTick w.lastTick)
          (logTick (readTick env w))) := by
  have hrl := (readTick_frame env w).2.1
  simp only [tinyTicksEventLoop, hrl, if_pos hne]

theorem agedSlot_proc (diff : Nat) (e : Event) :
    (agedSlot diff e).proc = 0 ∨ (agedSlot diff e).proc = e.proc := by
  unfold agedSlot
  by_cases h1 : e.proc ≠ 0
  · by_cases h2 : e.timeout ≤ diff
    · simp [h1, h2]
    · simp [h1, h2]
  · simp [h1]

/-- The queue loop keeps the queue free of duplicates when the procedures it
calls leave the queue alone. -/
theorem noDuplicates_processQueue (env : Env) (diff : Nat) (w : World)
    (hq : ∀ p, LeavesQueue (env.proc p)) (hnd : NoDuplicates w.tinyEventQueue) :
    NoDuplicates
      (processQueue env diff (List.finRange TINY_TICKS_EVENT_QUEUE_MAX) w).tinyEventQueue := by
  have hpq := (processQueue_quiet env diff (List.finRange TINY_TICKS_EVENT_QUEUE_MAX)
    (List.nodup_finRange _) w (fun i _ => hq _)).1
  have hproc : ∀ j, ((processQueue env diff (List.finRange TINY_TICKS_EVENT_QUEUE_MAX)
      w).tinyEventQueue j).proc ≠ 0 →
      ((processQueue env diff (List.finRange TINY_TICKS_EVENT_QUEUE_MAX)
        w).tinyEventQueue j).proc = (w.tinyEventQueue j).proc := by
    intro j hj
    rw [hpq j, if_pos (List.mem_finRange j)] at hj ⊢
    rcases agedSlot_proc diff (w.tinyEventQueue j) with h0 | h1
    · exact absurd h0 hj
    · exact h1
  intro a b hne heq
  have ha := hproc a hne
  have hb := hproc b (by rw [← heq]; exact hne)
  exact hnd a b (by rw [← ha]; exact hne) (by rw [← ha, ← hb]; exact heq)

/-! ## The claims about the dispatcher -/

/-- C9: a poll that reads a tick different from `lastTick` and so measures the
elapsed value `e`, with callbacks that do not touch the queue: every occupied
slot with remaining `<= e` is emptied, every occupied slot with remaining `> e`
keeps its callback with remaining reduced by `e`, empty slots are unchanged, and
the invocations made are the per-iteration callback (if set) followed by the
callbacks of the due slots, one invocation per due slot in increasing slot
order. -/
theorem poll_ages_queue (env : Env) (w : World) (hq : QuietCallbacks env)
    (hne : (readTick env w).curTick ≠ w.lastTick) :
    (∀ i, (w.tinyEventQueue i).proc ≠ 0 →
      (w.tinyEventQueue i).timeout ≤ tickDiff (readTick env w).curTick w.lastTick →
      (tinyTicksEventLoop env w).tinyEventQueue i = ⟨0, 0⟩) ∧
    (∀ i, (w.tinyEventQueue i).proc ≠ 0 →
      tickDiff (readTick env w).curTick w.lastTick < (w.tinyEventQueue i).timeout →
      (tinyTicksEventLoop env w).tinyEventQueue i =
        ⟨(w.tinyEventQueue i).proc,
          (w.tinyEventQueue i).timeout - tickDiff (readTick env w).curTick w.lastTick⟩) ∧
    (∀ i, (w.tinyEventQueue i).proc = 0 →
      (tinyTicksEventLoop env w).tinyEventQueue i = w.tinyEventQueue i) ∧
    (tinyTicksEventLoop env w).calls =
      w.calls ++
        (if w.tinyTicksEventLoopCallback ≠ 0
          then [Call.loop w.tinyTicksEventLoopCallback
            (tickDiff (readTick env w).curTick w.lastTick)] else []) ++
        ((List.finRange TINY_TICKS_EVENT_QUEUE_MAX).filter
          (fun i => decide ((w.tinyEventQueue i).proc ≠ 0 ∧
            (w.tinyEventQueue i).timeout ≤ tickDiff (readTick env w).curTick w.lastTick))).map
          (fun i => Call.event (w.tinyEventQueue i).proc) := by
  obtain ⟨hrq, hrl, hrc, hrcb⟩ := readTick_frame env w
  have hev := tinyTicksEventLoop_of_ne env w hne
  generalize readTick env w = w1 at *
  generalize tickDiff w1.curTick w.lastTick = e at *
  have hloop := runLoopCallback_quiet env e (logTick w1) hq.2
  simp only [logTick_frame] at hloop
  have hpq := processQueue_quiet env e
    (List.finRange TINY_TICKS_EVENT_QUEUE_MAX) (List.nodup_finRange _)
    (runLoopCallback env e (logTick w1)) (fun i _ => hq.1 _)
  rw [hev]
  have hslot : ∀ j, (processQueue env e (List.finRange TINY_TICKS_EVENT_QUEUE_MAX)
        (runLoopCallback env e (logTick w1))).tinyEventQueue j =
      agedSlot e (w.tinyEventQueue j) := by
    intro j
    rw [hpq.1 j, if_pos (List.mem_finRange j), hloop.1, hrq]
  refine ⟨?_, ?_, ?_, ?_⟩
  · intro i h1 h2
    rw [hslot i]
    simp [agedSlot, h1, h2]
  · intro i h1 h2
    rw [hslot i]
    simp [agedSlot, h1, Nat.not_le.mpr h2]
  · intro i h1
    rw [hslot i]
    simp [agedSlot, h1]
  · rw [hpq.2, hloop.2, hloop.1, hrq, hrc, hrcb]
    simp only [isDue]

theorem quiet_idleEnv : QuietCallbacks idleEnv :=
  ⟨fun _ _ => ⟨rfl, rfl⟩, fun _ _ _ => ⟨rfl, rfl⟩⟩

/-- C9 on a concrete poll: events with 5, 10 and 10 ticks remaining and a poll
that measures 7 elapsed ticks; the first is fired and removed, the other two are
left with 3 ticks each. -/
theorem poll_ages_queue_witness :
    QuietCallbacks idleEnv ∧
    (readTick idleEnv agingWorld).curTick ≠ agingWorld.lastTick ∧
    tickDiff (readTick idleEnv agingWorld).curTick agingWorld.lastTick = 7 ∧
    (tinyTicksEventLoop idleEnv agingWorld).tinyEventQueue 0 = ⟨0, 0⟩ ∧
    (tinyTicksEventLoop idleEnv agingWorld).tinyEventQueue.slots =
      [⟨0, 0⟩, ⟨2, 3⟩, ⟨3, 3⟩, ⟨0, 0⟩, ⟨0, 0⟩, ⟨0, 0⟩, ⟨0, 0⟩, ⟨0, 0⟩] ∧
    (tinyTicksEventLoop idleEnv agingWorld).calls = [Call.event 1] :=
  ⟨quiet_idleEnv, by decide, by decide,
    (poll_ages_queue idleEnv agingWorld quiet_idleEnv (by decide)).1 0 (by decide) (by decide),
    by decide, by decide⟩

/-- When some visited slot is empty or holds `proc`, the scan over an increasing
list of indices succeeds and writes a slot at or before it. -/
theorem setTimeoutScan_hit (proc t : Nat) (q : Queue)
    (l : List (Fin TINY_TICKS_EVENT_QUEUE_MAX)) (i : Fin TINY_TICKS_EVENT_QUEUE_MAX)
    (hl : l.Pairwise (· < ·)) (hi : i ∈ l)
    (hc : (q i).proc = 0 ∨ (q i).proc = proc) :
    ∃ j, j ≤ i ∧ setTimeoutScan proc t q l = (Function.update q j ⟨proc, t⟩, 1) := by
  induction l with
  | nil => simp at hi
  | cons a l ih =>
    have hai : a ≤ i := by
      rcases List.mem_cons.mp hi with rfl | hmem
      · exact le_refl _
      · exact le_of_lt ((List.pairwise_cons.mp hl).1 i hmem)
    by_cases hca : (q a).proc = 0 ∨ (q a).proc = proc
    · exact ⟨a, hai, by simp [setTimeoutScan, if_pos hca]⟩
    · have hmem : i ∈ l := by
        rcases List.mem_cons.mp hi with rfl | hmem
        · exact absurd hc hca
        · exact hmem
      obtain ⟨j, hj, hscan⟩ := ih (List.pairwise_cons.mp hl).2 hmem
      exact ⟨j, hj, by simp only [setTimeoutScan, if_neg hca, hscan]⟩

theorem count_event_map_zero (cb : Nat) (q : Queue) (l : List (Fin TINY_TICKS_EVENT_QUEUE_MAX))
    (h : ∀ a ∈ l, (q a).proc ≠ cb) :
    (l.map (fun a => Call.event (q a).proc)).count (Call.event cb) = 0 := by
  apply List.count_eq_zero_of_not_mem
  intro hmem
  obtain ⟨a, ha, heq⟩ := List.mem_map.mp hmem
  exact h a ha (Call.event.inj heq)

/-- The queue loop over `front ++ i :: back` when the due slot `i` is the only
one holding `cb`, `cb` re-registers itself and the other procedures leave the
queue alone. -/
theorem processQueue_self_register (env : Env) (diff cb t : Nat)
    (front back : List (Fin TINY_TICKS_EVENT_QUEUE_MAX)) (i : Fin TINY_TICKS_EVENT_QUEUE_MAX)
    (w : World) (hsorted : (front ++ i :: back).Pairwise (· < ·))
    (hcb : cb ≠ 0) (hi : (w.tinyEventQueue i).proc = cb)
    (honly : ∀ k, (w.tinyEventQueue k).proc = cb → k = i)
    (hdue : (w.tinyEventQueue i).timeout ≤ diff)
    (hre : ReRegisters env cb t) (hothers : ∀ p, p ≠ cb → LeavesQueue (env.proc p)) :
    (∃ j, j ≤ i ∧ (processQueue env diff (front ++ i :: back) w).tinyEventQueue j = ⟨cb, t⟩ ∧
      ∀ k, ((processQueue env diff (front ++ i :: back) w).tinyEventQueue k).proc = cb → k = j) ∧
    (processQueue env diff (front ++ i :: back) w).calls.count (Call.event cb) =
      w.calls.count (Call.event cb) + 1 := by
  obtain ⟨hpf, hpib, hcross⟩ := List.pairwise_append.mp hsorted
  obtain ⟨hib, hpb⟩ := List.pairwise_cons.mp hpib
  have hfront_lt : ∀ a ∈ front, a < i := fun a ha => hcross a ha i (List.mem_cons_self i back)
  have hfront_nd : front.Nodup := hpf.imp (fun h => ne_of_lt h)
  have hback_nd : back.Nodup := hpb.imp (fun h => ne_of_lt h)
  have hi_front : i ∉ front := fun h => lt_irrefl i (hfront_lt i h)
  have hfinal : processQueue env diff (front ++ i :: back) w =
      processQueue env diff back (processSlot env diff i (processQueue env diff front w)) := by
    rw [processQueue_append]
    rfl
  rw [hfinal]
  -- the slots before `i`
  have hqa := processQueue_quiet env diff front hfront_nd w (by
    intro a ha
    exact hothers _ (fun h => ne_of_lt (hfront_lt a ha) (honly a h)))
  generalize processQueue env diff front w = wa at hqa ⊢
  have hwa_i : wa.tinyEventQueue i = w.tinyEventQueue i := by
    rw [hqa.1 i, if_neg hi_front]
  have hwa_only : ∀ k, k ≠ i → (wa.tinyEventQueue k).proc ≠ cb := by
    intro k hk hproc
    rw [hqa.1 k] at hproc
    by_cases hkf : k ∈ front
    · rw [if_pos hkf] at hproc
      rcases agedSlot_proc diff (w.tinyEventQueue k) with h0 | h1
      · exact hcb (by rw [← hproc, h0])
      · exact hk (honly k (by rw [← h1, hproc]))
    · rw [if_neg hkf] at hproc
      exact hk (honly k hproc)
  have hwa_calls : wa.calls.count (Call.event cb) = w.calls.count (Call.event cb) := by
    rw [hqa.2, List.count_append, count_event_map_zero cb w.tinyEventQueue _ (by
      intro a ha h
      exact ne_of_lt (hfront_lt a (List.mem_filter.mp ha).1) (honly a h))]
    rfl
  -- slot `i` itself
  have hslot : processSlot env diff i wa = env.proc cb
      { wa with
        tinyEventQueue := Function.update wa.tinyEventQueue i ⟨0, 0⟩
        calls := wa.calls ++ [Call.event cb] } := by
    have h1 : (wa.tinyEventQueue i).proc ≠ 0 := by rw [hwa_i, hi]; exact hcb
    have h2 : (wa.tinyEventQueue i).timeout ≤ diff := by rw [hwa_i]; exact hdue
    have h3 : (wa.tinyEventQueue i).proc = cb := by rw [hwa_i, hi]
    unfold processSlot
    rw [if_pos h1, if_pos h2]
    simp only [h3]
  obtain ⟨j, hji, hreg⟩ := setTimeoutScan_hit cb t (Function.update wa.tinyEventQueue i ⟨0, 0⟩)
    (List.finRange TINY_TICKS_EVENT_QUEUE_MAX) i (List.pairwise_lt_finRange _)
    (List.mem_finRange i) (by left; simp)
  have hws_q : (processSlot env diff i wa).tinyEventQueue =
      Function.update (Function.update wa.tinyEventQueue i ⟨0, 0⟩) j ⟨cb, t⟩ := by
    rw [hslot, (hre _).1]
    show (setTimeoutScan cb t _ _).1 = _
    rw [hreg]
  have hws_c : (processSlot env diff i wa).calls = wa.calls ++ [Call.event cb] := by
    rw [hslot, (hre _).2]
  generalize processSlot env diff i wa = ws at hws_q hws_c ⊢
  have hback_gt : ∀ b ∈ back, i < b := hib
  have hj_back : j ∉ back := fun h => lt_irrefl i (lt_of_lt_of_le (hback_gt j h) hji)
  have hws_back : ∀ b ∈ back, ws.tinyEventQueue b = wa.tinyEventQueue b := by
    intro b hb
    have hbi : b ≠ i := ne_of_gt (hback_gt b hb)
    have hbj : b ≠ j := fun h => hj_back (h ▸ hb)
    rw [hws_q, Function.update_noteq hbj, Function.update_noteq hbi]
  have hws_other : ∀ k, k ≠ j → (ws.tinyEventQueue k).proc ≠ cb := by
    intro k hk
    rw [hws_q, Function.update_noteq hk]
    by_cases hki : k = i
    · subst hki
      simpa using hcb.symm
    · rw [Function.update_noteq hki]
      exact hwa_only k hki
  -- the slots after `i`
  have hqb := processQueue_quiet env diff back hback_nd ws (by
    intro b hb
    rw [hws_back b hb]
    exact hothers _ (hwa_only b (ne_of_gt (hback_gt b hb))))
  generalize processQueue env diff back ws = wf at hqb
  constructor
  · refine ⟨j, hji, ?_, ?_⟩
    · rw [hqb.1 j, if_neg hj_back, hws_q]
      simp
    · intro k hk
      by_contra hkj
      rw [hqb.1 k] at hk
      by_cases hkb : k ∈ back
      · rw [if_pos hkb] at hk
        rcases agedSlot_proc diff (ws.tinyEventQueue k) with h0 | h1
        · exact hcb (by rw [← hk, h0])
        · exact hws_other k hkj (by rw [← h1, hk])
      · rw [if_neg hkb] at hk
        exact hws_other k hkj hk
  · rw [hqb.2, List.count_append, count_event_map_zero cb ws.tinyEventQueue _ (by
      intro b hb
      exact hws_other b (fun h => hj_back (h ▸ (List.mem_filter.mp hb).1))), hws_c,
      List.count_append, hwa_calls]
    simp

/-- C10: in a queue without duplicates, a due event whose procedure `cb`
registers itself again (timeout `t`) while it runs, the other callbacks leaving
the queue alone: the poll invokes `cb` exactly once, and afterwards exactly one
slot holds `cb`, at or before the slot it fired from, with the timeout `t` as
registered (not reduced by the elapsed value of the poll). -/
theorem self_reregistration_once (env : Env) (w : World) (cb t : Nat)
    (i : Fin TINY_TICKS_EVENT_QUEUE_MAX)
    (hcb : cb ≠ 0) (hnd : NoDuplicates w.tinyEventQueue)
    (hi : (w.tinyEventQueue i).proc = cb)
    (hre : ReRegisters env cb t)
    (hothers : ∀ p, p ≠ cb → LeavesQueue (env.proc p))
    (hloop : ∀ p d, LeavesQueue (env.loopCallback p d))
    (hne : (readTick env w).curTick ≠ w.lastTick)
    (hdue : (w.tinyEventQueue i).timeout ≤ tickDiff (readTick env w).curTick w.lastTick) :
    (tinyTicksEventLoop env w).calls.count (Call.event cb) =
      w.calls.count (Call.event cb) + 1 ∧
    ∃ j, j ≤ i ∧ (tinyTicksEventLoop env w).tinyEventQueue j = ⟨cb, t⟩ ∧
      ∀ k, ((tinyTicksEventLoop env w).tinyEventQueue k).proc = cb → k = j := by
  obtain ⟨hrq, hrl, hrc, hrcb⟩ := readTick_frame env w
  have hev := tinyTicksEventLoop_of_ne env w hne
  generalize readTick env w = w1 at *
  generalize tickDiff w1.curTick w.lastTick = e at *
  have hlp := runLoopCallback_quiet env e (logTick w1) hloop
  simp only [logTick_frame] at hlp
  obtain ⟨front, back, hsplit⟩ := List.append_of_mem (List.mem_finRange i)
  have hsorted := List.pairwise_lt_finRange TINY_TICKS_EVENT_QUEUE_MAX
  rw [hsplit] at hsorted
  have hmain := processQueue_self_register env e cb t front back i
    (runLoopCallback env e (logTick w1)) hsorted hcb (by rw [hlp.1, hrq]; exact hi)
    (by
      intro k hk
      rw [hlp.1, hrq] at hk
      exact (hnd i k (by rw [hi]; exact hcb) (by rw [hi, hk])).symm)
    (by rw [hlp.1, hrq]; exact hdue) hre hothers
  rw [hev, hsplit]
  refine ⟨?_, hmain.1⟩
  rw [hmain.2, hlp.2, hrc, List.count_append]
  by_cases hc : w1.tinyTicksEventLoopCallback ≠ 0
  · simp [hc]
  · simp [hc]

theorem reRegisters_rescheduleEnv : ReRegisters rescheduleEnv 2 100 :=
  fun _ => ⟨rfl, rfl⟩

theorem others_rescheduleEnv : ∀ p, p ≠ 2 → LeavesQueue (rescheduleEnv.proc p) := by
  intro p hp w
  simp [rescheduleEnv, hp]

/-- C10 on a concrete poll: procedure `2` in slot 1 is due, runs once and ends
up in slot 1 again with its fresh timeout of 100 ticks. -/
theorem self_reregistration_once_witness :
    NoDuplicates rescheduleWorld.tinyEventQueue ∧
    (readTick rescheduleEnv rescheduleWorld).curTick ≠ rescheduleWorld.lastTick ∧
    (rescheduleWorld.tinyEventQueue 1).timeout ≤
      tickDiff (readTick rescheduleEnv rescheduleWorld).curTick rescheduleWorld.lastTick ∧
    ((tinyTicksEventLoop rescheduleEnv rescheduleWorld).calls.count (Call.event 2) =
      rescheduleWorld.calls.count (Call.event 2) + 1 ∧
    ∃ j, j ≤ 1 ∧ (tinyTicksEventLoop rescheduleEnv rescheduleWorld).tinyEventQueue j = ⟨2, 100⟩ ∧
      ∀ k, ((tinyTicksEventLoop rescheduleEnv rescheduleWorld).tinyEventQueue k).proc = 2 →
        k = j) ∧
    (tinyTicksEventLoop rescheduleEnv rescheduleWorld).tinyEventQueue.slots =
      [⟨1, 43⟩, ⟨2, 100⟩, ⟨3, 3⟩, ⟨0, 0⟩, ⟨0, 0⟩, ⟨0, 0⟩, ⟨0, 0⟩, ⟨0, 0⟩] :=
  ⟨by decide, by decide, by decide,
    self_reregistration_once rescheduleEnv rescheduleWorld 2 100 1 (by decide) (by decide) rfl
      reRegisters_rescheduleEnv others_rescheduleEnv (fun _ _ _ => ⟨rfl, rfl⟩) (by decide)
      (by decide),
    by decide⟩

/-! ## Facts about the timer and the measured elapsed value -/

theorem isrTim0Ovf_iterate (k acc : Nat) :
    (isrTim0Ovf^[k] acc) % TICK_MOD = (acc + 256 * k) % TICK_MOD := by
  induction k with
  | zero => simp
  | succ n ih =>
    rw [Function.iterate_succ_apply', isrTim0Ovf]
    unfold TICK_MOD at *
    omega

theorem tickNow_lt (w : World) : tickNow w < TICK_MOD := by
  unfold tickNow tinyTicks
  exact Nat.mod_lt _ (by decide)

theorem tickNow_elapse (d : Nat) (w : World) (h : w.TOV0 = false) :
    tickNow (elapse d w) = (tickNow w + d) % TICK_MOD := by
  have hit := isrTim0Ovf_iterate ((w.TCNT0 + d) / 256) w._t0_overflow
  simp only [tickNow, tinyTicks, elapse, h, Bool.false_eq_true, if_false]
  unfold TICK_MOD at *
  omega

/-- The measured elapsed value never exceeds the ticks that went by between the
two readings. -/
theorem tickDiff_le (last cur d : Nat) (hl : last < TICK_MOD)
    (hc : cur = (last + d) % TICK_MOD) (hne : cur ≠ last) : tickDiff cur last ≤ d := by
  unfold tickDiff TICK_MOD at *
  split <;> omega

theorem tickDiff_synced (phase c1 c2 : Nat) (h : c1 ≤ c2)
    (hne : (c2 + phase) % TICK_MOD ≠ (c1 + phase) % TICK_MOD) :
    tickDiff ((c2 + phase) % TICK_MOD) ((c1 + phase) % TICK_MOD) ≤ c2 - c1 := by
  apply tickDiff_le _ _ _ (Nat.mod_lt _ (by decide)) _ hne
  unfold TICK_MOD
  omega

theorem synced_elapse (phase c d : Nat) (w : World) (h : Synced phase c w) :
    Synced phase c (elapse d w) := by
  obtain ⟨h1, h2, h3, h4⟩ := h
  refine ⟨?_, h2, ?_, h4⟩
  · show c ≤ w.clock + d
    omega
  · rw [tickNow_elapse d w h2, h3]
    show _ = (w.clock + d + phase) % TICK_MOD
    unfold TICK_MOD
    omega

theorem synced_readTick (env : Env) (phase c : Nat) (w : World) (h : Synced phase c w) :
    Synced phase c (readTick env w) ∧
    (readTick env w).curTick = ((readTick env w).clock + phase) % TICK_MOD := by
  have he := synced_elapse phase c (env.delay w.polls) w h
  obtain ⟨h1, h2, h3, h4⟩ := he
  exact ⟨⟨h1, h2, h3, h4⟩, h3⟩

theorem synced_logTick (phase c : Nat) (w : World) (h : Synced phase c w)
    (hcur : w.curTick = (w.clock + phase) % TICK_MOD) :
    Synced phase w.clock (logTick w) := by
  obtain ⟨_, h2, h3, _⟩ := h
  exact ⟨le_refl _, h2, h3, hcur⟩

theorem synced_queue_update (phase c : Nat) (w : World) (q : Queue) (l : List Call)
    (h : Synced phase c w) : Synced phase c { w with tinyEventQueue := q, calls := l } := h

theorem keepsTime_processSlot (env : Env) (hcb : TimedCallbacks env) (diff : Nat)
    (i : Fin TINY_TICKS_EVENT_QUEUE_MAX) : KeepsTime (processSlot env diff i) := by
  intro phase c w h
  unfold processSlot
  by_cases h1 : (w.tinyEventQueue i).proc ≠ 0
  · by_cases h2 : (w.tinyEventQueue i).timeout ≤ diff
    · rw [if_pos h1, if_pos h2]
      exact hcb.1 _ phase c _ (synced_queue_update phase c w _ _ h)
    · rw [if_pos h1, if_neg h2]
      exact ⟨c, le_refl _, h⟩
  · rw [if_neg h1]
    exact ⟨c, le_refl _, h⟩

theorem keepsTime_processQueue (env : Env) (hcb : TimedCallbacks env) (diff : Nat)
    (l : List (Fin TINY_TICKS_EVENT_QUEUE_MAX)) : KeepsTime (processQueue env diff l) := by
  induction l with
  | nil => exact fun phase c w h => ⟨c, le_refl _, h⟩
  | cons a l ih =>
    intro phase c w h
    obtain ⟨c1, hc1, hs1⟩ := keepsTime_processSlot env hcb diff a phase c w h
    obtain ⟨c2, hc2, hs2⟩ := ih phase c1 _ hs1
    exact ⟨c2, le_trans hc1 hc2, hs2⟩

theorem keepsTime_runLoopCallback (env : Env) (hcb : TimedCallbacks env) (diff : Nat) :
    KeepsTime (runLoopCallback env diff) := by
  intro phase c w h
  unfold runLoopCallback
  by_cases h1 : w.tinyTicksEventLoopCallback ≠ 0
  · rw [if_pos h1]
    exact hcb.2 _ _ phase c _ h
  · rw [if_neg h1]
    exact ⟨c, le_refl _, h⟩

theorem keepsTime_elapse (d : Nat) : KeepsTime (elapse d) :=
  fun phase c w h => ⟨c, le_refl _, synced_elapse phase c d w h⟩

/-- A poll keeps the world in step with the timer, so callbacks may poll. -/
theorem keepsTime_tinyTicksEventLoop (env : Env) (hcb : TimedCallbacks env) :
    KeepsTime (tinyTicksEventLoop env) := by
  intro phase c w h
  obtain ⟨hs, hcur⟩ := synced_readTick env phase c w h
  have hrl := (readTick_frame env w).2.1
  by_cases hne : (readTick env w).curTick ≠ w.lastTick
  · rw [tinyTicksEventLoop_of_ne env w hne]
    have h1 := synced_logTick phase c _ hs hcur
    obtain ⟨c2, hc2, hs2⟩ := keepsTime_runLoopCallback env hcb _ phase _ _ h1
    obtain ⟨c3, hc3, hs3⟩ := keepsTime_processQueue env hcb _ _ phase _ _ hs2
    exact ⟨c3, le_trans hs.1 (le_trans hc2 hc3), hs3⟩
  · have : tinyTicksEventLoop env w = readTick env w := by
      simp only [tinyTicksEventLoop, hrl]
      rw [if_neg hne]
    rw [this]
    exact ⟨c, le_refl _, hs⟩

/-! ## Facts about the blocking wait -/

/-- One iteration of the waiting loop keeps the budget: when `start + total` is
at most the time `c` of the last observation plus the remaining `tickTimeout`,
a `return` happens no earlier than `start + total`, and otherwise the same bound
holds at the end of the loop body. -/
theorem delayIteration_budget (env : Env) (hcb : TimedCallbacks env)
    (phase start total t c : Nat) (w : World)
    (hs : Synced phase c w) (hb : start + total ≤ c + t) :
    (∀ w', delayIteration env t w = Outcome.returned w' → start + total ≤ w'.clock) ∧
    (∀ t' w', delayIteration env t w = Outcome.again t' w' →
      ∃ c', Synced phase c' w' ∧ start + total ≤ c' + t') := by
  obtain ⟨hs1, hcur⟩ := synced_readTick env phase c w hs
  have hlast : (readTick env w).lastTick = (c + phase) % TICK_MOD := hs1.2.2.2
  have hc1 : c ≤ (readTick env w).clock := hs1.1
  have hs2 := synced_logTick phase c _ hs1 hcur
  unfold delayIteration
  generalize readTick env w = w1 at *
  by_cases hne : w1.curTick ≠ w1.lastTick
  · have hdiff : tickDiff w1.curTick w1.lastTick ≤ w1.clock - c := by
      rw [hcur, hlast]
      apply tickDiff_synced phase c w1.clock hc1
      rw [← hcur, ← hlast]
      exact hne
    simp only [if_pos hne]
    generalize tickDiff w1.curTick w1.lastTick = diff at *
    by_cases hge : diff ≥ t
    · simp only [if_pos hge]
      constructor
      · intro w' hw'
        injection hw' with hw'
        subst hw'
        show start + total ≤ w1.clock
        omega
      · intro t' w' hw'
        exact Outcome.noConfusion hw'
    · simp only [if_neg hge]
      obtain ⟨c3, hc3, hs3⟩ := keepsTime_runLoopCallback env hcb diff phase _ _ hs2
      generalize runLoopCallback env diff (logTick w1) = w3 at *
      obtain ⟨c4, hc4, hs4⟩ := keepsTime_processQueue env hcb diff
        (List.finRange TINY_TICKS_EVENT_QUEUE_MAX) phase _ _ hs3
      generalize processQueue env diff (List.finRange TINY_TICKS_EVENT_QUEUE_MAX) w3 = w4 at *
      have hc4le : c4 ≤ w4.clock := hs4.1
      by_cases hmoved : w4.lastTick ≠ w3.lastTick
      · have hdiff2 : tickDiff w4.lastTick w3.lastTick ≤ c4 - c3 := by
          rw [hs4.2.2.2, hs3.2.2.2]
          apply tickDiff_synced phase c3 c4 hc4
          rw [← hs4.2.2.2, ← hs3.2.2.2]
          exact hmoved
        simp only [if_pos hmoved]
        generalize tickDiff w4.lastTick w3.lastTick = diff2 at *
        by_cases hge2 : diff2 ≥ t - diff
        · simp only [if_pos hge2]
          constructor
          · intro w' hw'
            injection hw' with hw'
            subst hw'
            omega
          · intro t' w' hw'
            exact Outcome.noConfusion hw'
        · simp only [if_neg hge2]
          constructor
          · intro w' hw'
            exact Outcome.noConfusion hw'
          · intro t' w' hw'
            injection hw' with ht' hw'
            subst ht' hw'
            exact ⟨c4, hs4, by omega⟩
      · simp only [if_neg hmoved]
        constructor
        · intro w' hw'
          exact Outcome.noConfusion hw'
        · intro t' w' hw'
          injection hw' with ht' hw'
          subst ht' hw'
          exact ⟨c4, hs4, by omega⟩
  · simp only [if_neg hne]
    constructor
    · intro w' hw'
      exact Outcome.noConfusion hw'
    · intro t' w' hw'
      injection hw' with ht' hw'
      subst ht' hw'
      exact ⟨c, hs1, hb⟩

theorem delay_budget (env : Env) (hcb : TimedCallbacks env) (phase start total : Nat)
    (fuel : Nat) (t c : Nat) (w w' : World)
    (hs : Synced phase c w) (hb : start + total ≤ c + t)
    (hret : tinyTicksDelayInTicks env fuel t w = some w') : start + total ≤ w'.clock := by
  induction fuel generalizing t c w with
  | zero => simp [tinyTicksDelayInTicks] at hret
  | succ n ih =>
    have hit := delayIteration_budget env hcb phase start total t c w hs hb
    unfold tinyTicksDelayInTicks at hret
    cases hout : delayIteration env t w with
    | returned w1 =>
      rw [hout] at hret
      injection hret with hret
      subst hret
      exact hit.1 _ hout
    | again t1 w1 =>
      rw [hout] at hret
      obtain ⟨c1, hs1, hb1⟩ := hit.2 _ _ hout
      exact ih t1 c1 w1 hs1 hb1 hret

theorem synced_of_current (w : World) (hflag : w.TOV0 = false) (hlast : w.lastTick = tickNow w) :
    Synced (tickNow w + (TICK_MOD - w.clock % TICK_MOD)) w.clock w := by
  have hlt := tickNow_lt w
  have h : tickNow w = (w.clock + (tickNow w + (TICK_MOD - w.clock % TICK_MOD))) % TICK_MOD := by
    unfold TICK_MOD at *
    omega
  exact ⟨le_refl _, hflag, h, by rw [hlast]; exact h⟩

theorem timed_promptEnv : TimedCallbacks promptEnv :=
  ⟨fun _ _ c _ h => ⟨c, le_refl _, h⟩, fun _ _ _ c _ h => ⟨c, le_refl _, h⟩⟩

theorem timed_busyEnv : TimedCallbacks busyEnv := by
  constructor
  · intro p phase c w h
    by_cases hp : p = 1
    · have hstep : busyEnv.proc p w = tinyTicksEventLoop promptEnv (elapse 3 w) := by
        simp [busyEnv, hp]
      rw [hstep]
      exact keepsTime_tinyTicksEventLoop promptEnv timed_promptEnv phase c _
        (synced_elapse phase c 3 w h)
    · have hstep : busyEnv.proc p w = w := by simp [busyEnv, hp]
      rw [hstep]
      exact ⟨c, le_refl _, h⟩
  · exact fun _ _ _ c _ h => ⟨c, le_refl _, h⟩

/-! ## The claims about timing -/

/-- C6, at the failing input: in `staleWorld` the clock reads 100 while
`lastTick` is still 0; procedure `1` is registered there with a timeout of 50
ticks, and the poll made one tick later, at time 101, measures 101 elapsed ticks
and invokes it, 49 ticks early. -/
theorem event_fires_before_timeout :
    tickNow staleWorld = 100 ∧ staleWorld.clock = 100 ∧ staleWorld.lastTick = 0 ∧
    (setTimeoutIn staleWorld 1 50).tinyEventQueue.slots =
      [⟨1, 50⟩, ⟨0, 0⟩, ⟨0, 0⟩, ⟨0, 0⟩, ⟨0, 0⟩, ⟨0, 0⟩, ⟨0, 0⟩, ⟨0, 0⟩] ∧
    (tinyTicksEventLoop tickEnv (setTimeoutIn staleWorld 1 50)).clock = 101 ∧
    (tinyTicksEventLoop tickEnv (setTimeoutIn staleWorld 1 50)).calls = [Call.event 1] := by
  decide

/-- C7, at the failing input: in `staleWorld` the clock reads 100 while
`lastTick` is still 0; `tinyTicksDelayInTicks(50)` called there measures 101
elapsed ticks on its first iteration and returns at time 101, after one tick
instead of 50. -/
theorem delay_returns_before_timeout :
    tickNow staleWorld = 100 ∧ staleWorld.clock = 100 ∧ staleWorld.lastTick = 0 ∧
    (tinyTicksDelayInTicks tickEnv 1 50 staleWorld).map (fun w => w.clock) = some 101 ∧
    ¬ (staleWorld.clock + 50 ≤ 101) := by
  decide

/-- C8: when `tinyTicksDelayInTicks(T)` is called with `lastTick` equal to the
current tick, and the callbacks it runs keep time (they may let ticks pass and
may poll the dispatcher, which moves `lastTick`), it returns only in a world
whose clock is at least `T` ticks past the clock at the call.  The second part
is the correction itself: in an iteration that passes the first check and in
which queue processing moved `lastTick`, the ticks it moved by end the wait when
they reach the remaining target and are subtracted from it otherwise. -/
theorem delay_charges_callback_time (env : Env) (hcb : TimedCallbacks env) (w : World)
    (hflag : w.TOV0 = false) (hlast : w.lastTick = tickNow w) (T : Nat) :
    (∀ fuel w', tinyTicksDelayInTicks env fuel T w = some w' → w.clock + T ≤ w'.clock) ∧
    (∀ t v, (readTick env v).curTick ≠ v.lastTick →
      tickDiff (readTick env v).curTick v.lastTick < t →
      (processQueue env (tickDiff (readTick env v).curTick v.lastTick)
          (List.finRange TINY_TICKS_EVENT_QUEUE_MAX)
          (runLoopCallback env (tickDiff (readTick env v).curTick v.lastTick)
            (logTick (readTick env v)))).lastTick ≠
        (runLoopCallback env (tickDiff (readTick env v).curTick v.lastTick)
            (logTick (readTick env v))).lastTick →
      delayIteration env t v =
        if tickDiff
            (processQueue env (tickDiff (readTick env v).curTick v.lastTick)
              (List.finRange TINY_TICKS_EVENT_QUEUE_MAX)
              (runLoopCallback env (tickDiff (readTick env v).curTick v.lastTick)
                (logTick (readTick env v)))).lastTick
            (runLoopCallback env (tickDiff (readTick env v).curTick v.lastTick)
              (logTick (readTick env v))).lastTick ≥
            t - tickDiff (readTick env v).curTick v.lastTick
        then Outcome.returned
          (processQueue env (tickDiff (readTick env v).curTick v.lastTick)
            (List.finRange TINY_TICKS_EVENT_QUEUE_MAX)
            (runLoopCallback env (tickDiff (readTick env v).curTick v.lastTick)
              (logTick (readTick env v))))
        else Outcome.again
          (t - tickDiff (readTick env v).curTick v.lastTick -
            tickDiff
              (processQueue env (tickDiff (readTick env v).curTick v.lastTick)
                (List.finRange TINY_TICKS_EVENT_QUEUE_MAX)
                (runLoopCallback env (tickDiff (readTick env v).curTick v.lastTick)
                  (logTick (readTick env v)))).lastTick
              (runLoopCallback env (tickDiff (readTick env v).curTick v.lastTick)
                (logTick (readTick env v))).lastTick)
          (processQueue env (tickDiff (readTick env v).curTick v.lastTick)
            (List.finRange TINY_TICKS_EVENT_QUEUE_MAX)
            (runLoopCallback env (tickDiff (readTick env v).curTick v.lastTick)
              (logTick (readTick env v))))) := by
  constructor
  · intro fuel w' hret
    exact delay_budget env hcb _ w.clock T fuel T w.clock w w'
      (synced_of_current w hflag hlast) (le_refl _) hret
  · intro t v hne hlt hmoved
    have hrl := (readTick_frame env v).2.1
    rw [← hrl] at hne hlt hmoved ⊢
    unfold delayIteration
    simp only [if_pos hne, if_neg (Nat.not_le.mpr hlt), if_pos hmoved]

/-- C8 on a concrete run: `tinyTicksDelayInTicks(20)` with 7 ticks between clock
reads and a fired callback that takes 3 ticks and polls the dispatcher.  The
first iteration leaves `20 - 7 - 3 = 10` ticks to wait, and the call returns at
time 24. -/
theorem delay_charges_callback_time_witness :
    TimedCallbacks busyEnv ∧ busyWorld.TOV0 = false ∧ busyWorld.lastTick = tickNow busyWorld ∧
    tinyTicksDelayInTicks busyEnv 3 20 busyWorld = some busyResult ∧
    busyWorld.clock + 20 ≤ busyResult.clock ∧
    busyResult.clock = 24 ∧ busyResult.calls = [Call.event 1] ∧
    (delayIteration busyEnv 20 busyWorld).remaining = some 10 :=
  ⟨timed_busyEnv, rfl, by decide, by rfl,
    (delay_charges_callback_time busyEnv timed_busyEnv busyWorld rfl (by decide) 20).1 3
      busyResult (by rfl),
    by decide, by decide, by decide⟩

/-! ## Further facts about the waiting loop -/

theorem delayIteration_of_eq (env : Env) (t : Nat) (w : World)
    (heq : (readTick env w).curTick = w.lastTick) :
    delayIteration env t w = Outcome.again t (readTick env w) := by
  have hrl := (readTick_frame env w).2.1
  rw [← hrl] at heq
  unfold delayIteration
  simp only [ne_eq, heq, not_true_eq_false, if_false]

theorem delayIteration_first_check (env : Env) (t : Nat) (w : World)
    (hne : (readTick env w).curTick ≠ w.lastTick)
    (hge : t ≤ tickDiff (readTick env w).curTick w.lastTick) :
    delayIteration env t w = Outcome.returned (logTick (readTick env w)) := by
  have hrl := (readTick_frame env w).2.1
  rw [← hrl] at hne hge
  unfold delayIteration
  simp only [if_pos hne, ge_iff_le, if_pos hge]

theorem tinyTicksEventLoop_of_eq (env : Env) (w : World)
    (heq : (readTick env w).curTick = w.lastTick) :
    tinyTicksEventLoop env w = readTick env w := by
  have hrl := (readTick_frame env w).2.1
  rw [← hrl] at heq
  unfold tinyTicksEventLoop
  simp only [ne_eq, heq, not_true_eq_false, if_false]

/-! ## The claims about the short-circuit, the reset and the race window -/

/-- C13: when `tinyTicksEventLoop` reads a tick equal to `lastTick` it does
nothing beyond the clock read: no callback is applied to the world, and
`lastTick`, every queue slot and the invocation log are unchanged, whatever the
queue holds. -/
theorem poll_short_circuit (env : Env) (w : World)
    (heq : (readTick env w).curTick = w.lastTick) :
    tinyTicksEventLoop env w = readTick env w ∧
    (tinyTicksEventLoop env w).lastTick = w.lastTick ∧
    (∀ i, (tinyTicksEventLoop env w).tinyEventQueue i = w.tinyEventQueue i) ∧
    (tinyTicksEventLoop env w).calls = w.calls := by
  rw [tinyTicksEventLoop_of_eq env w heq]
  obtain ⟨hq, hl, hc, _⟩ := readTick_frame env w
  exact ⟨rfl, hl, fun i => by rw [hq], hc⟩

/-- C13 on a concrete poll: an event with 0 ticks remaining and a registered
per-iteration callback, polled before the clock has moved. -/
theorem poll_short_circuit_witness :
    (readTick promptEnv dueWorld).curTick = dueWorld.lastTick ∧
    (dueWorld.tinyEventQueue 0 = ⟨1, 0⟩ ∧ dueWorld.tinyTicksEventLoopCallback = 9) ∧
    (tinyTicksEventLoop promptEnv dueWorld = readTick promptEnv dueWorld ∧
    (tinyTicksEventLoop promptEnv dueWorld).lastTick = dueWorld.lastTick ∧
    (∀ i, (tinyTicksEventLoop promptEnv dueWorld).tinyEventQueue i = dueWorld.tinyEventQueue i) ∧
    (tinyTicksEventLoop promptEnv dueWorld).calls = dueWorld.calls) :=
  ⟨by decide, by decide, poll_short_circuit promptEnv dueWorld (by decide)⟩

/-- C14: after `tinyTicksInit` the overflow accumulator, `lastTick` and
`curTick` are 0 and every slot is empty; after `tinyTicksClearEventQueue` every
slot is empty, the depth is 0, and eight registrations of distinct non-null
callbacks all return 1. -/
theorem init_and_clear_reset :
    (∀ w : World, (tinyTicksInit w)._t0_overflow = 0 ∧ (tinyTicksInit w).lastTick = 0 ∧
      (tinyTicksInit w).curTick = 0 ∧ ∀ i, (tinyTicksInit w).tinyEventQueue i = ⟨0, 0⟩) ∧
    (∀ q : Queue, (∀ i, tinyTicksClearEventQueue q i = ⟨0, 0⟩) ∧
      tinyTicksEventQueueDepth (tinyTicksClearEventQueue q) = 0 ∧
      ∀ evs : List Event, evs.length = TINY_TICKS_EVENT_QUEUE_MAX →
        (evs.map Event.proc).Nodup → (∀ e ∈ evs, e.proc ≠ 0) →
        (registerAll (tinyTicksClearEventQueue q) evs).2 =
          List.replicate TINY_TICKS_EVENT_QUEUE_MAX 1) := by
  constructor
  · intro w
    refine ⟨rfl, rfl, rfl, ?_⟩
    intro i
    show (List.finRange TINY_TICKS_EVENT_QUEUE_MAX).foldl
      (fun q i => Function.update q i (⟨0, 0⟩ : Event)) w.tinyEventQueue i = _
    rw [foldl_clear, if_pos (List.mem_finRange i)]
  · intro q
    rw [tinyTicksClearEventQueue_eq]
    refine ⟨fun _ => rfl, by decide, ?_⟩
    intro evs hlen hnd hnz
    have hall := registerAll_fill evs [] (by simp [hlen]) (by simpa using hnd)
      (by simpa using hnz)
    rw [filledQueue_nil] at hall
    rw [hall, hlen]

/-- C14 on a concrete run: `gapQueue` is cleared and the eight events of
`eightEvents` are then registered. -/
theorem init_and_clear_reset_witness :
    (eightEvents.length = TINY_TICKS_EVENT_QUEUE_MAX ∧ (eightEvents.map Event.proc).Nodup ∧
      ∀ e ∈ eightEvents, e.proc ≠ 0) ∧
    (registerAll (tinyTicksClearEventQueue gapQueue) eightEvents).2 =
      List.replicate TINY_TICKS_EVENT_QUEUE_MAX 1 :=
  ⟨by decide,
    (init_and_clear_reset.2 gapQueue).2.2 eightEvents (by decide) (by decide) (by decide)⟩

/-- C15: with the counter below 255, the tick read while the overflow is pending
(accumulator `acc`, flag set) equals the tick read after the overflow handler
has run (accumulator `isrTim0Ovf acc`, flag clear). -/
theorem tinyTicks_pending_eq_serviced (acc tmr : Nat) (h : tmr < 255) :
    tinyTicks acc tmr true = tinyTicks (isrTim0Ovf acc) tmr false := by
  unfold tinyTicks isrTim0Ovf TICK_MOD
  simp only [h, if_true, Bool.false_eq_true, if_false]
  omega

/-- C15 at an accumulator value about to wrap: `0xFF00` with the counter at 3. -/
theorem tinyTicks_pending_eq_serviced_witness :
    (3 : Nat) < 255 ∧ tinyTicks 65280 3 true = tinyTicks (isrTim0Ovf 65280) 3 false ∧
    tinyTicks 65280 3 true = 3 :=
  ⟨by decide, tinyTicks_pending_eq_serviced 65280 3 (by decide), by decide⟩

/-- C18: on an iteration of the loop of `tinyTicksDelayInTicks` whose reading
differs from `lastTick` and whose measured elapsed value reaches the remaining
target, the function returns with `lastTick` set to the reading, every queue
slot as it was and no callback invoked: the elapsed ticks are not subtracted
from any queued event. -/
theorem delay_return_skips_queue (env : Env) (t : Nat) (w : World)
    (hne : (readTick env w).curTick ≠ w.lastTick)
    (hge : t ≤ tickDiff (readTick env w).curTick w.lastTick) :
    delayIteration env t w = Outcome.returned (logTick (readTick env w)) ∧
    (∀ fuel, tinyTicksDelayInTicks env (fuel + 1) t w = some (logTick (readTick env w))) ∧
    (logTick (readTick env w)).lastTick = (readTick env w).curTick ∧
    (∀ i, (logTick (readTick env w)).tinyEventQueue i = w.tinyEventQueue i) ∧
    (logTick (readTick env w)).calls = w.calls := by
  have hit := delayIteration_first_check env t w hne hge
  obtain ⟨hq, _, hc, _⟩ := readTick_frame env w
  refine ⟨hit, ?_, rfl, ?_, ?_⟩
  · intro fuel
    simp only [tinyTicksDelayInTicks, hit]
  · intro i
    show (readTick env w).tinyEventQueue i = _
    rw [hq]
  · show (readTick env w).calls = _
    rw [hc]

/-- C18 on a concrete run: a wait for 5 ticks whose first reading comes 7 ticks
after `lastTick`; the event due in 5 ticks stays queued with 5 ticks. -/
theorem delay_return_skips_queue_witness :
    (readTick idleEnv agingWorld).curTick ≠ agingWorld.lastTick ∧
    5 ≤ tickDiff (readTick idleEnv agingWorld).curTick agingWorld.lastTick ∧
    (delayIteration idleEnv 5 agingWorld =
      Outcome.returned (logTick (readTick idleEnv agingWorld)) ∧
    (∀ fuel, tinyTicksDelayInTicks idleEnv (fuel + 1) 5 agingWorld =
      some (logTick (readTick idleEnv agingWorld))) ∧
    (logTick (readTick idleEnv agingWorld)).lastTick = (readTick idleEnv agingWorld).curTick ∧
    (∀ i, (logTick (readTick idleEnv agingWorld)).tinyEventQueue i =
      agingWorld.tinyEventQueue i) ∧
    (logTick (readTick idleEnv agingWorld)).calls = agingWorld.calls) ∧
    (logTick (readTick idleEnv agingWorld)).lastTick = 7 ∧
    (logTick (readTick idleEnv agingWorld)).tinyEventQueue 0 = ⟨1, 5⟩ :=
  ⟨by decide, by decide, delay_return_skips_queue idleEnv 5 agingWorld (by decide) (by decide),
    by decide, by decide⟩

/-! ## The claims about the waiter's loop body and null registrations -/

theorem delayIteration_world (env : Env) (t : Nat) (w : World)
    (hlt : (readTick env w).curTick ≠ w.lastTick →
      tickDiff (readTick env w).curTick w.lastTick < t) :
    (delayIteration env t w).world = tinyTicksEventLoop env w := by
  by_cases hne : (readTick env w).curTick ≠ w.lastTick
  · rw [tinyTicksEventLoop_of_ne env w hne]
    have hd := hlt hne
    have hrl := (readTick_frame env w).2.1
    rw [← hrl] at hne hd ⊢
    unfold delayIteration
    simp only [if_pos hne, ge_iff_le, if_neg (Nat.not_le.mpr hd)]
    generalize processQueue env (tickDiff (readTick env w).curTick (readTick env w).lastTick)
      (List.finRange TINY_TICKS_EVENT_QUEUE_MAX)
      (runLoopCallback env (tickDiff (readTick env w).curTick (readTick env w).lastTick)
        (logTick (readTick env w))) = w4
    generalize (runLoopCallback env (tickDiff (readTick env w).curTick (readTick env w).lastTick)
        (logTick (readTick env w))).lastTick = last3
    split_ifs <;> rfl
  · have heq : (readTick env w).curTick = w.lastTick := not_not.mp hne
    rw [delayIteration_of_eq env t w heq, tinyTicksEventLoop_of_eq env w heq]
    rfl

theorem keepsLastTick_processQueue (env : Env) (h : ∀ p, KeepsLastTick (env.proc p))
    (diff : Nat) (l : List (Fin TINY_TICKS_EVENT_QUEUE_MAX)) :
    KeepsLastTick (processQueue env diff l) := by
  induction l with
  | nil => exact fun _ => rfl
  | cons a l ih =>
    intro w
    show (processQueue env diff l (processSlot env diff a w)).lastTick = _
    rw [ih]
    unfold processSlot
    split_ifs
    · rw [h]
    · rfl
    · rfl

/-- C16: an iteration of the loop of `tinyTicksDelayInTicks` whose remaining
target exceeds the elapsed value it measures ends in exactly the world that
`tinyTicksEventLoop` produces from the same state and reading (the same
`lastTick`, the same queue, the same log of invoked callbacks with their
arguments); when the callbacks do not re-enter the dispatcher the iteration does
not return and goes on with the target reduced by the elapsed value. -/
theorem delay_iteration_runs_poll (env : Env) (t : Nat) (w : World)
    (hlt : (readTick env w).curTick ≠ w.lastTick →
      tickDiff (readTick env w).curTick w.lastTick < t) :
    (delayIteration env t w).world = tinyTicksEventLoop env w ∧
    (NoReentry env →
      delayIteration env t w =
        Outcome.again
          (if (readTick env w).curTick ≠ w.lastTick
            then t - tickDiff (readTick env w).curTick w.lastTick else t)
          (tinyTicksEventLoop env w)) := by
  refine ⟨delayIteration_world env t w hlt, ?_⟩
  intro hre
  by_cases hne : (readTick env w).curTick ≠ w.lastTick
  · rw [if_pos hne, tinyTicksEventLoop_of_ne env w hne]
    have hd := hlt hne
    have hrl := (readTick_frame env w).2.1
    have hkeep := keepsLastTick_processQueue env hre.1
      (tickDiff (readTick env w).curTick w.lastTick)
      (List.finRange TINY_TICKS_EVENT_QUEUE_MAX)
      (runLoopCallback env (tickDiff (readTick env w).curTick w.lastTick)
        (logTick (readTick env w)))
    rw [← hrl] at hne hd hkeep ⊢
    unfold delayIteration
    simp only [if_pos hne, ge_iff_le, if_neg (Nat.not_le.mpr hd), ne_eq, hkeep,
      not_true_eq_false, if_false]
  · have heq : (readTick env w).curTick = w.lastTick := not_not.mp hne
    rw [if_neg hne, delayIteration_of_eq env t w heq, tinyTicksEventLoop_of_eq env w heq]

theorem noReentry_idleEnv : NoReentry idleEnv :=
  ⟨fun _ _ => rfl, fun _ _ _ => rfl⟩

/-- C16 on a concrete iteration: a wait for 20 ticks that measures 7 elapsed
ticks ages the queue as the poll does and goes on with 13 ticks. -/
theorem delay_iteration_runs_poll_witness :
    ((readTick idleEnv agingWorld).curTick ≠ agingWorld.lastTick →
      tickDiff (readTick idleEnv agingWorld).curTick agingWorld.lastTick < 20) ∧
    ((delayIteration idleEnv 20 agingWorld).world = tinyTicksEventLoop idleEnv agingWorld ∧
    (NoReentry idleEnv →
      delayIteration idleEnv 20 agingWorld =
        Outcome.again
          (if (readTick idleEnv agingWorld).curTick ≠ agingWorld.lastTick
            then 20 - tickDiff (readTick idleEnv agingWorld).curTick agingWorld.lastTick else 20)
          (tinyTicksEventLoop idleEnv agingWorld))) ∧
    (delayIteration idleEnv 20 agingWorld).remaining = some 13 ∧
    (delayIteration idleEnv 20 agingWorld).world.calls = [Call.event 1] :=
  ⟨by decide, delay_iteration_runs_poll idleEnv 20 agingWorld (by decide), by decide, by decide⟩

/-- When some visited slot is empty or holds `proc`, the scan over an increasing
list of indices writes the least such slot. -/
theorem setTimeoutScan_least (proc t : Nat) (q : Queue)
    (l : List (Fin TINY_TICKS_EVENT_QUEUE_MAX)) (hl : l.Pairwise (· < ·))
    (h : ∃ i ∈ l, (q i).proc = 0 ∨ (q i).proc = proc) :
    ∃ j ∈ l, ((q j).proc = 0 ∨ (q j).proc = proc) ∧
      (∀ k ∈ l, ((q k).proc = 0 ∨ (q k).proc = proc) → j ≤ k) ∧
      setTimeoutScan proc t q l = (Function.update q j ⟨proc, t⟩, 1) := by
  induction l with
  | nil =>
    obtain ⟨i, hi, _⟩ := h
    simp at hi
  | cons a l ih =>
    obtain ⟨hal, hl2⟩ := List.pairwise_cons.mp hl
    by_cases hca : (q a).proc = 0 ∨ (q a).proc = proc
    · refine ⟨a, List.mem_cons_self a l, hca, ?_, by simp [setTimeoutScan, if_pos hca]⟩
      intro k hk _
      rcases List.mem_cons.mp hk with rfl | hkl
      · exact le_refl _
      · exact le_of_lt (hal k hkl)
    · obtain ⟨i, hi, hci⟩ := h
      have hil : i ∈ l := by
        rcases List.mem_cons.mp hi with rfl | hil
        · exact absurd hci hca
        · exact hil
      obtain ⟨j, hj, hcj, hmin, hscan⟩ := ih hl2 ⟨i, hil, hci⟩
      refine ⟨j, List.mem_cons_of_mem a hj, hcj, ?_, by
        simp only [setTimeoutScan, if_neg hca, hscan]⟩
      intro k hk hck
      rcases List.mem_cons.mp hk with rfl | hkl
      · exact absurd hck hca
      · exact hmin k hkl hck

/-- C19: registering the null callback into a queue with an empty slot returns 1
and writes only the stored timeout of the first empty slot, so that every slot
keeps its callback, every occupied slot keeps its remaining value and the depth
is unchanged; into a queue without an empty slot it returns 0 and changes
nothing. -/
theorem register_null_callback (q : Queue) (t : Nat) :
    ((∃ i, (q i).proc = 0) →
      (tinyTicksSetTimeoutInTicks q 0 t).2 = 1 ∧
      tinyTicksEventQueueDepth (tinyTicksSetTimeoutInTicks q 0 t).1 =
        tinyTicksEventQueueDepth q ∧
      (∀ j, ((tinyTicksSetTimeoutInTicks q 0 t).1 j).proc = (q j).proc) ∧
      (∀ j, (q j).proc ≠ 0 → (tinyTicksSetTimeoutInTicks q 0 t).1 j = q j) ∧
      ∃ i, (q i).proc = 0 ∧ (∀ k, k < i → (q k).proc ≠ 0) ∧
        (tinyTicksSetTimeoutInTicks q 0 t).1 = Function.update q i ⟨0, t⟩) ∧
    ((∀ i, (q i).proc ≠ 0) → tinyTicksSetTimeoutInTicks q 0 t = (q, 0)) := by
  constructor
  · intro hex
    obtain ⟨i0, hi0⟩ := hex
    obtain ⟨j, _, hcj, hmin, hscan⟩ := setTimeoutScan_least 0 t q
      (List.finRange TINY_TICKS_EVENT_QUEUE_MAX) (List.pairwise_lt_finRange _)
      ⟨i0, List.mem_finRange i0, Or.inl hi0⟩
    have hj0 : (q j).proc = 0 := hcj.elim id id
    have hreg : tinyTicksSetTimeoutInTicks q 0 t = (Function.update q j ⟨0, t⟩, 1) := hscan
    have hproc : ∀ k, (Function.update q j (⟨0, t⟩ : Event) k).proc = (q k).proc := by
      intro k
      by_cases hk : k = j
      · subst hk
        rw [Function.update_same, hj0]
      · rw [Function.update_noteq hk]
    rw [hreg]
    refine ⟨rfl, ?_, hproc, ?_, ⟨j, hj0, ?_, rfl⟩⟩
    · rw [depth_eq, depth_eq]
      congr 1
      apply List.filter_congr
      intro k _
      show decide ((Function.update q j (⟨0, t⟩ : Event) k).proc ≠ 0) = _
      rw [hproc k]
    · intro k hk
      have hkj : k ≠ j := fun h => hk (h ▸ hj0)
      show Function.update q j (⟨0, t⟩ : Event) k = q k
      rw [Function.update_noteq hkj]
    · intro k hk hk0
      exact absurd (hmin k (List.mem_finRange k) (Or.inl hk0)) (not_le.mpr hk)
  · intro hfull
    apply tinyTicksSetTimeoutInTicks_of_fail
    rw [tinyTicksSetTimeoutInTicks_fail_iff]
    exact fun i => ⟨hfull i, hfull i⟩

/-- C19 on concrete queues: `gapQueue`, whose slot 0 is empty, and the queue
filled with the events of `eightEvents`. -/
theorem register_null_callback_witness :
    ((∃ i, (gapQueue i).proc = 0) ∧ ∀ i, (filledQueue eightEvents i).proc ≠ 0) ∧
    (tinyTicksSetTimeoutInTicks gapQueue 0 5).2 = 1 ∧
    tinyTicksEventQueueDepth (tinyTicksSetTimeoutInTicks gapQueue 0 5).1 =
      tinyTicksEventQueueDepth gapQueue ∧
    (tinyTicksSetTimeoutInTicks gapQueue 0 5).1.slots =
      [⟨0, 5⟩, ⟨7, 10⟩, ⟨0, 0⟩, ⟨0, 0⟩, ⟨0, 0⟩, ⟨0, 0⟩, ⟨0, 0⟩, ⟨0, 0⟩] ∧
    tinyTicksSetTimeoutInTicks (filledQueue eightEvents) 0 5 = (filledQueue eightEvents, 0) :=
  ⟨by decide,
    ((register_null_callback gapQueue 5).1 (by decide)).1,
    ((register_null_callback gapQueue 5).1 (by decide)).2.1,
    by decide,
    (register_null_callback (filledQueue eightEvents) 5).2 (by decide)⟩

/-! ## The claims about the per-iteration callback and the zero target -/

theorem processQueue_calls (env : Env) (h : ∀ p, KeepsLog (env.proc p)) (diff : Nat)
    (l : List (Fin TINY_TICKS_EVENT_QUEUE_MAX)) (w : World) :
    ∃ evs : List Call, (∀ c ∈ evs, ∃ p, c = Call.event p) ∧
      (processQueue env diff l w).calls = w.calls ++ evs := by
  induction l generalizing w with
  | nil => exact ⟨[], by simp, by simp [processQueue]⟩
  | cons a l ih =>
    obtain ⟨evs, hevs, hcalls⟩ := ih (processSlot env diff a w)
    have hslot : (processSlot env diff a w).calls = w.calls ∨
        ∃ p, (processSlot env diff a w).calls = w.calls ++ [Call.event p] := by
      unfold processSlot
      split_ifs
      · right
        exact ⟨_, by rw [h]⟩
      · left; rfl
      · left; rfl
    rcases hslot with hs | ⟨p, hs⟩
    · exact ⟨evs, hevs, by simp only [processQueue, hcalls, hs]⟩
    · refine ⟨Call.event p :: evs, ?_, by simp only [processQueue, hcalls, hs]; simp⟩
      intro c hc
      rcases List.mem_cons.mp hc with rfl | hc
      · exact ⟨p, rfl⟩
      · exact hevs c hc

theorem runLoopCallback_calls (env : Env) (h : ∀ p d, KeepsLog (env.loopCallback p d))
    (diff : Nat) (w : World) :
    (runLoopCallback env diff w).calls =
      w.calls ++ (if w.tinyTicksEventLoopCallback ≠ 0
        then [Call.loop w.tinyTicksEventLoopCallback diff] else []) := by
  unfold runLoopCallback
  by_cases hc : w.tinyTicksEventLoopCallback ≠ 0
  · simp only [if_pos hc]
    rw [h]
  · simp [hc]

theorem poll_calls (env : Env) (hpl : PlainCallbacks env) (w : World)
    (hne : (readTick env w).curTick ≠ w.lastTick) :
    ∃ evs : List Call, (∀ c ∈ evs, ∃ p, c = Call.event p) ∧
      (tinyTicksEventLoop env w).calls =
        w.calls ++
          (if w.tinyTicksEventLoopCallback ≠ 0
            then [Call.loop w.tinyTicksEventLoopCallback
              (tickDiff (readTick env w).curTick w.lastTick)] else []) ++ evs := by
  obtain ⟨_, _, hrc, hrcb⟩ := readTick_frame env w
  rw [tinyTicksEventLoop_of_ne env w hne]
  obtain ⟨evs, hevs, hcalls⟩ := processQueue_calls env hpl.1
    (tickDiff (readTick env w).curTick w.lastTick) (List.finRange TINY_TICKS_EVENT_QUEUE_MAX)
    (runLoopCallback env (tickDiff (readTick env w).curTick w.lastTick)
      (logTick (readTick env w)))
  refine ⟨evs, hevs, ?_⟩
  rw [hcalls, runLoopCallback_calls env hpl.2]
  simp only [logTick_frame, hrc, hrcb]

/-- C11, at the input where it fails: the per-iteration callback `9` is
registered and the first reading of `tinyTicksDelayInTicks(5)` comes 7 ticks
after `lastTick`; the call returns on that iteration without having invoked
anything, whereas `tinyTicksEventLoop` on the same reading invokes the callback
with 7. -/
theorem loop_callback_skipped_on_return :
    dueWorld.tinyTicksEventLoopCallback = 9 ∧
    (readTick idleEnv dueWorld).curTick ≠ dueWorld.lastTick ∧
    (tinyTicksDelayInTicks idleEnv 1 5 dueWorld).map (fun w => w.calls) = some [] ∧
    (tinyTicksEventLoop idleEnv dueWorld).calls = [Call.loop 9 7, Call.event 1] := by
  decide

theorem extendsLog_processSlot (env : Env) (h : ∀ p, ExtendsLog (env.proc p)) (diff : Nat)
    (i : Fin TINY_TICKS_EVENT_QUEUE_MAX) : ExtendsLog (processSlot env diff i) := by
  intro w
  unfold processSlot
  split_ifs
  · obtain ⟨l, hl⟩ := h (w.tinyEventQueue i).proc
      { w with
        tinyEventQueue := Function.update w.tinyEventQueue i ⟨0, 0⟩
        calls := w.calls ++ [Call.event (w.tinyEventQueue i).proc] }
    exact ⟨Call.event (w.tinyEventQueue i).proc :: l, by rw [hl]; simp⟩
  · exact ⟨[], by simp⟩
  · exact ⟨[], by simp⟩

theorem extendsLog_processQueue (env : Env) (h : ∀ p, ExtendsLog (env.proc p)) (diff : Nat)
    (l : List (Fin TINY_TICKS_EVENT_QUEUE_MAX)) : ExtendsLog (processQueue env diff l) := by
  induction l with
  | nil => exact fun w => ⟨[], by simp [processQueue]⟩
  | cons a l ih =>
    intro w
    obtain ⟨l1, h1⟩ := extendsLog_processSlot env h diff a w
    obtain ⟨l2, h2⟩ := ih (processSlot env diff a w)
    exact ⟨l1 ++ l2, by simp only [processQueue, h2, h1, List.append_assoc]⟩

/-- The per-iteration callback statement, for callbacks that only add to the
log: the log gains the invocation, when a callback is registered, followed by
whatever the callback itself has logged. -/
theorem runLoopCallback_log (env : Env) (h : ∀ p d, ExtendsLog (env.loopCallback p d))
    (diff : Nat) (w : World) :
    ∃ l, (runLoopCallback env diff w).calls =
      w.calls ++ (if w.tinyTicksEventLoopCallback ≠ 0
        then [Call.loop w.tinyTicksEventLoopCallback diff] else []) ++ l := by
  unfold runLoopCallback
  by_cases hc : w.tinyTicksEventLoopCallback ≠ 0
  · simp only [if_pos hc]
    obtain ⟨l, hl⟩ := h w.tinyTicksEventLoopCallback diff
      { w with calls := w.calls ++ [Call.loop w.tinyTicksEventLoopCallback diff] }
    exact ⟨l, hl⟩
  · simp only [if_neg hc]
    exact ⟨[], by simp⟩

/-- A poll whose reading differs from `lastTick`, for callbacks that only add to
the log: the log gains the invocation of the per-iteration callback with the
elapsed value, when one is registered, ahead of anything else. -/
theorem poll_log (env : Env) (hlog : LogOnlyGrows env) (w : World)
    (hne : (readTick env w).curTick ≠ w.lastTick) :
    ∃ l, (tinyTicksEventLoop env w).calls =
      w.calls ++
        (if w.tinyTicksEventLoopCallback ≠ 0
          then [Call.loop w.tinyTicksEventLoopCallback
            (tickDiff (readTick env w).curTick w.lastTick)] else []) ++ l := by
  obtain ⟨_, _, hrc, hrcb⟩ := readTick_frame env w
  rw [tinyTicksEventLoop_of_ne env w hne]
  obtain ⟨l1, h1⟩ := runLoopCallback_log env hlog.2
    (tickDiff (readTick env w).curTick w.lastTick) (logTick (readTick env w))
  obtain ⟨l2, h2⟩ := extendsLog_processQueue env hlog.1
    (tickDiff (readTick env w).curTick w.lastTick) (List.finRange TINY_TICKS_EVENT_QUEUE_MAX)
    (runLoopCallback env (tickDiff (readTick env w).curTick w.lastTick)
      (logTick (readTick env w)))
  refine ⟨l1 ++ l2, ?_⟩
  rw [h2, h1]
  simp only [logTick_frame, hrc, hrcb, List.append_assoc]

/-- A poll only adds to the log when its callbacks do, so callbacks may poll. -/
theorem extendsLog_tinyTicksEventLoop (env : Env) (hlog : LogOnlyGrows env) :
    ExtendsLog (tinyTicksEventLoop env) := by
  intro w
  by_cases hne : (readTick env w).curTick ≠ w.lastTick
  · obtain ⟨l, hl⟩ := poll_log env hlog w hne
    exact ⟨_, by rw [hl, List.append_assoc]⟩
  · rw [tinyTicksEventLoop_of_eq env w (not_not.mp hne), (readTick_frame env w).2.2.1]
    exact ⟨[], by simp⟩

theorem logOnlyGrows_promptEnv : LogOnlyGrows promptEnv :=
  ⟨fun _ _ => ⟨[], by simp [promptEnv]⟩, fun _ _ _ => ⟨[], by simp [promptEnv]⟩⟩

theorem logOnlyGrows_busyEnv : LogOnlyGrows busyEnv := by
  constructor
  · intro p w
    by_cases hp : p = 1
    · have hstep : busyEnv.proc p w = tinyTicksEventLoop promptEnv (elapse 3 w) := by
        simp [busyEnv, hp]
      rw [hstep]
      exact extendsLog_tinyTicksEventLoop promptEnv logOnlyGrows_promptEnv (elapse 3 w)
    · have hstep : busyEnv.proc p w = w := by simp [busyEnv, hp]
      rw [hstep]
      exact ⟨[], by simp⟩
  · exact fun _ _ _ => ⟨[], by simp [busyEnv]⟩

/-- C11 as amended, for every environment and every world in which the reading
differs from `lastTick`.  With a per-iteration callback registered, a poll by
`tinyTicksEventLoop`, and an iteration of `tinyTicksDelayInTicks` that does not
return through its first check, log the invocation and apply the callback to the
elapsed value before the queue loop runs; with none registered the queue loop
runs on the world as it is; an iteration that returns through the first check
invokes nothing.  For callbacks that only add to the log (they may poll the
dispatcher themselves) the log of the result starts with the old log followed by
that invocation, and for callbacks that do not poll the only further entries are
queued events. -/
theorem loop_callback_invoked (env : Env) (w : World)
    (hne : (readTick env w).curTick ≠ w.lastTick) :
    (w.tinyTicksEventLoopCallback ≠ 0 →
      tinyTicksEventLoop env w =
        processQueue env (tickDiff (readTick env w).curTick w.lastTick)
          (List.finRange TINY_TICKS_EVENT_QUEUE_MAX)
          (env.loopCallback w.tinyTicksEventLoopCallback
            (tickDiff (readTick env w).curTick w.lastTick)
            { logTick (readTick env w) with
              calls := w.calls ++ [Call.loop w.tinyTicksEventLoopCallback
                (tickDiff (readTick env w).curTick w.lastTick)] }) ∧
      ∀ t, tickDiff (readTick env w).curTick w.lastTick < t →
        (delayIteration env t w).world =
          processQueue env (tickDiff (readTick env w).curTick w.lastTick)
            (List.finRange TINY_TICKS_EVENT_QUEUE_MAX)
            (env.loopCallback w.tinyTicksEventLoopCallback
              (tickDiff (readTick env w).curTick w.lastTick)
              { logTick (readTick env w) with
                calls := w.calls ++ [Call.loop w.tinyTicksEventLoopCallback
                  (tickDiff (readTick env w).curTick w.lastTick)] })) ∧
    (w.tinyTicksEventLoopCallback = 0 →
      tinyTicksEventLoop env w =
        processQueue env (tickDiff (readTick env w).curTick w.lastTick)
          (List.finRange TINY_TICKS_EVENT_QUEUE_MAX) (logTick (readTick env w)) ∧
      ∀ t, tickDiff (readTick env w).curTick w.lastTick < t →
        (delayIteration env t w).world =
          processQueue env (tickDiff (readTick env w).curTick w.lastTick)
            (List.finRange TINY_TICKS_EVENT_QUEUE_MAX) (logTick (readTick env w))) ∧
    (∀ t, t ≤ tickDiff (readTick env w).curTick w.lastTick →
      delayIteration env t w = Outcome.returned (logTick (readTick env w)) ∧
      (logTick (readTick env w)).calls = w.calls) ∧
    (LogOnlyGrows env →
      (∃ l, (tinyTicksEventLoop env w).calls =
        w.calls ++
          (if w.tinyTicksEventLoopCallback ≠ 0
            then [Call.loop w.tinyTicksEventLoopCallback
              (tickDiff (readTick env w).curTick w.lastTick)] else []) ++ l) ∧
      ∀ t, tickDiff (readTick env w).curTick w.lastTick < t →
        ∃ l, (delayIteration env t w).world.calls =
          w.calls ++
            (if w.tinyTicksEventLoopCallback ≠ 0
              then [Call.loop w.tinyTicksEventLoopCallback
                (tickDiff (readTick env w).curTick w.lastTick)] else []) ++ l) ∧
    (PlainCallbacks env →
      (∃ evs : List Call, (∀ c ∈ evs, ∃ p, c = Call.event p) ∧
        (tinyTicksEventLoop env w).calls =
          w.calls ++
            (if w.tinyTicksEventLoopCallback ≠ 0
              then [Call.loop w.tinyTicksEventLoopCallback
                (tickDiff (readTick env w).curTick w.lastTick)] else []) ++ evs) ∧
      ∀ t, tickDiff (readTick env w).curTick w.lastTick < t →
        ∃ evs : List Call, (∀ c ∈ evs, ∃ p, c = Call.event p) ∧
          (delayIteration env t w).world.calls =
            w.calls ++
              (if w.tinyTicksEventLoopCallback ≠ 0
                then [Call.loop w.tinyTicksEventLoopCallback
                  (tickDiff (readTick env w).curTick w.lastTick)] else []) ++ evs) := by
  obtain ⟨_, _, hrc, hrcb⟩ := readTick_frame env w
  have hpoll := tinyTicksEventLoop_of_ne env w hne
  have hcbk : (logTick (readTick env w)).tinyTicksEventLoopCallback =
      w.tinyTicksEventLoopCallback := by rw [(logTick_frame _).2.2.1, hrcb]
  have hcalls : (logTick (readTick env w)).calls = w.calls := by
    rw [(logTick_frame _).2.1, hrc]
  have hset : w.tinyTicksEventLoopCallback ≠ 0 →
      runLoopCallback env (tickDiff (readTick env w).curTick w.lastTick)
        (logTick (readTick env w)) =
      env.loopCallback w.tinyTicksEventLoopCallback
        (tickDiff (readTick env w).curTick w.lastTick)
        { logTick (readTick env w) with
          calls := w.calls ++ [Call.loop w.tinyTicksEventLoopCallback
            (tickDiff (readTick env w).curTick w.lastTick)] } := by
    intro hc
    have hc2 : (logTick (readTick env w)).tinyTicksEventLoopCallback ≠ 0 := by
      rw [hcbk]
      exact hc
    unfold runLoopCallback
    rw [if_pos hc2]
    rfl
  have hunset : w.tinyTicksEventLoopCallback = 0 →
      runLoopCallback env (tickDiff (readTick env w).curTick w.lastTick)
        (logTick (readTick env w)) = logTick (readTick env w) := by
    intro hc
    have hc2 : ¬ (logTick (readTick env w)).tinyTicksEventLoopCallback ≠ 0 := by
      rw [hcbk, hc]
      exact fun h => h rfl
    unfold runLoopCallback
    rw [if_neg hc2]
  refine ⟨?_, ?_, ?_, ?_, ?_⟩
  · intro hc
    refine ⟨by rw [hpoll, hset hc], ?_⟩
    intro t ht
    rw [delayIteration_world env t w (fun _ => ht), hpoll, hset hc]
  · intro hc
    refine ⟨by rw [hpoll, hunset hc], ?_⟩
    intro t ht
    rw [delayIteration_world env t w (fun _ => ht), hpoll, hunset hc]
  · intro t ht
    exact ⟨delayIteration_first_check env t w hne ht, hcalls⟩
  · intro hlog
    refine ⟨poll_log env hlog w hne, ?_⟩
    intro t ht
    rw [delayIteration_world env t w (fun _ => ht)]
    exact poll_log env hlog w hne
  · intro hpl
    refine ⟨poll_calls env hpl w hne, ?_⟩
    intro t ht
    rw [delayIteration_world env t w (fun _ => ht)]
    exact poll_calls env hpl w hne

theorem plain_idleEnv : PlainCallbacks idleEnv :=
  ⟨fun _ _ => rfl, fun _ _ _ => rfl⟩

/-- C11 as amended, on concrete runs.  Under `busyEnv`, whose procedure `1`
polls the dispatcher itself, a poll and a wait for 20 ticks from
`busyCallbackWorld` log callback `9` with 7 first, then the due event and what
its nested poll invokes; under `idleEnv` the poll from `dueWorld` invokes the
callback and the due event, and a wait for 5 ticks returns without invoking
anything. -/
theorem loop_callback_invoked_witness :
    ((readTick busyEnv busyCallbackWorld).curTick ≠ busyCallbackWorld.lastTick ∧
      busyCallbackWorld.tinyTicksEventLoopCallback ≠ 0 ∧ LogOnlyGrows busyEnv) ∧
    (∃ l, (tinyTicksEventLoop busyEnv busyCallbackWorld).calls =
      busyCallbackWorld.calls ++
        (if busyCallbackWorld.tinyTicksEventLoopCallback ≠ 0
          then [Call.loop busyCallbackWorld.tinyTicksEventLoopCallback
            (tickDiff (readTick busyEnv busyCallbackWorld).curTick
              busyCallbackWorld.lastTick)] else []) ++ l) ∧
    (tinyTicksEventLoop busyEnv busyCallbackWorld).calls =
      [Call.loop 9 7, Call.event 1, Call.loop 9 3] ∧
    (delayIteration busyEnv 20 busyCallbackWorld).world.calls =
      [Call.loop 9 7, Call.event 1, Call.loop 9 3] ∧
    ((readTick idleEnv dueWorld).curTick ≠ dueWorld.lastTick ∧ PlainCallbacks idleEnv) ∧
    (tinyTicksEventLoop idleEnv dueWorld).calls = [Call.loop 9 7, Call.event 1] ∧
    (delayIteration idleEnv 5 dueWorld = Outcome.returned (logTick (readTick idleEnv dueWorld)) ∧
      (logTick (readTick idleEnv dueWorld)).calls = dueWorld.calls) :=
  ⟨⟨by decide, by decide, logOnlyGrows_busyEnv⟩,
    ((loop_callback_invoked busyEnv busyCallbackWorld (by decide)).2.2.2.1
      logOnlyGrows_busyEnv).1,
    by decide, by decide, ⟨by decide, plain_idleEnv⟩, by decide,
    (loop_callback_invoked idleEnv dueWorld (by decide)).2.2.1 5 (by decide)⟩

theorem readTick_iterate_frame (env : Env) (k : Nat) (w : World) :
    ((readTick env)^[k] w).tinyEventQueue = w.tinyEventQueue ∧
    ((readTick env)^[k] w).lastTick = w.lastTick ∧
    ((readTick env)^[k] w).calls = w.calls := by
  induction k generalizing w with
  | zero => exact ⟨rfl, rfl, rfl⟩
  | succ n ih =>
    rw [Function.iterate_succ_apply]
    obtain ⟨h1, h2, h3⟩ := ih (readTick env w)
    obtain ⟨hq, hl, hc, _⟩ := readTick_frame env w
    exact ⟨h1.trans hq, h2.trans hl, h3.trans hc⟩

theorem delay_zero_after (env : Env) (k : Nat) (w : World)
    (hsame : ∀ j, j < k → ((readTick env)^[j + 1] w).curTick = w.lastTick)
    (hne : ((readTick env)^[k + 1] w).curTick ≠ w.lastTick) :
    tinyTicksDelayInTicks env (k + 1) 0 w = some (logTick ((readTick env)^[k + 1] w)) := by
  induction k generalizing w with
  | zero =>
    have h1 : (readTick env)^[0 + 1] w = readTick env w := rfl
    rw [h1] at hne ⊢
    simp only [tinyTicksDelayInTicks, delayIteration_first_check env 0 w hne (Nat.zero_le _)]
  | succ n ih =>
    have h0 : (readTick env w).curTick = w.lastTick := hsame 0 (Nat.succ_pos n)
    have hl := (readTick_frame env w).2.1
    have hstep : tinyTicksDelayInTicks env (n + 1 + 1) 0 w =
        tinyTicksDelayInTicks env (n + 1) 0 (readTick env w) := by
      conv_lhs => unfold tinyTicksDelayInTicks
      simp only [delayIteration_of_eq env 0 w h0]
    rw [hstep, Function.iterate_succ_apply]
    apply ih
    · intro j hj
      rw [← Function.iterate_succ_apply, hl]
      exact hsame (j + 1) (Nat.succ_lt_succ hj)
    · rw [← Function.iterate_succ_apply, hl]
      exact hne

/-- C12, at the input where it fails: `tinyTicksDelayInTicks(0)` is called while
the clock still reads `lastTick`; the first and the second loop iteration do not
return, and the call returns on the third iteration, once the clock has moved
by one tick. -/
theorem delay_zero_waits_for_tick :
    (readTick lazyEnv busyWorld).curTick = busyWorld.lastTick ∧
    (delayIteration lazyEnv 0 busyWorld).remaining = some 0 ∧
    (tinyTicksDelayInTicks lazyEnv 1 0 busyWorld).isSome = false ∧
    (tinyTicksDelayInTicks lazyEnv 2 0 busyWorld).isSome = false ∧
    (tinyTicksDelayInTicks lazyEnv 3 0 busyWorld).map (fun w => w.clock) = some 1 := by
  decide

/-- C12 as amended: a loop iteration of `tinyTicksDelayInTicks(0)` returns when
its reading differs from `lastTick` and goes round again, still with target 0,
when the reading equals it; so the call returns on the first iteration whose
reading differs from `lastTick` (the `k + 1`-th when the first `k` readings equal
it), with every queue slot and the invocation log as they were. -/
theorem delay_zero_returns_on_tick (env : Env) (w : World) :
    ((readTick env w).curTick ≠ w.lastTick →
      delayIteration env 0 w = Outcome.returned (logTick (readTick env w))) ∧
    ((readTick env w).curTick = w.lastTick →
      delayIteration env 0 w = Outcome.again 0 (readTick env w)) ∧
    (∀ k, (∀ j, j < k → ((readTick env)^[j + 1] w).curTick = w.lastTick) →
      ((readTick env)^[k + 1] w).curTick ≠ w.lastTick →
      tinyTicksDelayInTicks env (k + 1) 0 w = some (logTick ((readTick env)^[k + 1] w)) ∧
      (∀ i, (logTick ((readTick env)^[k + 1] w)).tinyEventQueue i = w.tinyEventQueue i) ∧
      (logTick ((readTick env)^[k + 1] w)).calls = w.calls) := by
  refine ⟨fun hne => delayIteration_first_check env 0 w hne (Nat.zero_le _),
    fun heq => delayIteration_of_eq env 0 w heq, ?_⟩
  intro k hsame hne
  obtain ⟨hq, _, hc⟩ := readTick_iterate_frame env (k + 1) w
  refine ⟨delay_zero_after env k w hsame hne, ?_, ?_⟩
  · intro i
    show ((readTick env)^[k + 1] w).tinyEventQueue i = _
    rw [hq]
  · show ((readTick env)^[k + 1] w).calls = _
    rw [hc]

/-- C12 as amended, on a concrete run: in `dueWorld` under `lazyEnv` the first
two readings equal `lastTick` and the third differs; the call returns on the
third iteration and has invoked nothing. -/
theorem delay_zero_returns_on_tick_witness :
    (∀ j, j < 2 → ((readTick lazyEnv)^[j + 1] dueWorld).curTick = dueWorld.lastTick) ∧
    ((readTick lazyEnv)^[2 + 1] dueWorld).curTick ≠ dueWorld.lastTick ∧
    (tinyTicksDelayInTicks lazyEnv (2 + 1) 0 dueWorld =
      some (logTick ((readTick lazyEnv)^[2 + 1] dueWorld)) ∧
    (∀ i, (logTick ((readTick lazyEnv)^[2 + 1] dueWorld)).tinyEventQueue i =
      dueWorld.tinyEventQueue i) ∧
    (logTick ((readTick lazyEnv)^[2 + 1] dueWorld)).calls = dueWorld.calls) :=
  ⟨by decide, by decide,
    (delay_zero_returns_on_tick lazyEnv dueWorld).2.2 2 (by decide) (by decide)⟩

/-! ## The claim about the waiter returning -/

theorem processQueue_of_empty (env : Env) (diff : Nat)
    (l : List (Fin TINY_TICKS_EVENT_QUEUE_MAX)) (w : World)
    (h : ∀ i, (w.tinyEventQueue i).proc = 0) : processQueue env diff l w = w := by
  induction l with
  | nil => rfl
  | cons a l ih =>
    have hs : processSlot env diff a w = w := by
      unfold processSlot
      simp only [h a, ne_eq, not_true_eq_false, if_false]
    simp only [processQueue, hs, ih]

theorem runLoopCallback_of_unset (env : Env) (diff : Nat) (w : World)
    (h : w.tinyTicksEventLoopCallback = 0) : runLoopCallback env diff w = w := by
  unfold runLoopCallback
  simp only [h, ne_eq, not_true_eq_false, if_false]

/-- With no per-iteration callback and an empty queue, an iteration that does
not return through its first check only logs the reading and reduces the
target. -/
theorem delayIteration_bare (env : Env) (t : Nat) (w : World)
    (hcb : w.tinyTicksEventLoopCallback = 0) (hq : ∀ i, (w.tinyEventQueue i).proc = 0)
    (hne : (readTick env w).curTick ≠ w.lastTick)
    (hlt : tickDiff (readTick env w).curTick w.lastTick < t) :
    delayIteration env t w =
      Outcome.again (t - tickDiff (readTick env w).curTick w.lastTick)
        (logTick (readTick env w)) := by
  obtain ⟨hrq, hrl, _, hrcb⟩ := readTick_frame env w
  have h3 : runLoopCallback env (tickDiff (readTick env w).curTick w.lastTick)
      (logTick (readTick env w)) = logTick (readTick env w) :=
    runLoopCallback_of_unset env _ _ (by rw [(logTick_frame _).2.2.1, hrcb, hcb])
  have h4 : processQueue env (tickDiff (readTick env w).curTick w.lastTick)
      (List.finRange TINY_TICKS_EVENT_QUEUE_MAX) (logTick (readTick env w)) =
      logTick (readTick env w) :=
    processQueue_of_empty env _ _ _ (by
      intro i
      rw [(logTick_frame _).1, hrq]
      exact hq i)
  rw [← hrl] at hne hlt h3 h4 ⊢
  unfold delayIteration
  simp only [if_pos hne, ge_iff_le, if_neg (Nat.not_le.mpr hlt), h3, h4, ne_eq,
    not_true_eq_false, if_false]

theorem tickDiff_eq_zero_iff (cur last : Nat) (hc : cur < TICK_MOD) (hl : last < TICK_MOD) :
    tickDiff cur last = 0 ↔ last = 65535 ∧ cur = 0 := by
  unfold tickDiff TICK_MOD at *
  split <;> omega

theorem readsBound_pos (t last : Nat) : 1 ≤ readsBound t last := by
  unfold readsBound
  split <;> omega

theorem readsBound_le (t last : Nat) : readsBound t last ≤ 2 * t + 1 := by
  unfold readsBound
  split_ifs <;> omega

theorem readsBound_step (t cur last : Nat) (hc : cur < TICK_MOD) (hl : last < TICK_MOD)
    (hlt : tickDiff cur last < t) :
    readsBound (t - tickDiff cur last) cur + 1 ≤ readsBound t last := by
  have hz := tickDiff_eq_zero_iff cur last hc hl
  unfold readsBound
  generalize tickDiff cur last = d at *
  unfold TICK_MOD at *
  split_ifs <;> omega

theorem readTick_polls (env : Env) (w : World) : (readTick env w).polls = w.polls + 1 := by
  simp [readTick, elapse]

theorem readTick_curTick_lt (env : Env) (w : World) : (readTick env w).curTick < TICK_MOD :=
  tickNow_lt _

/-- With no per-iteration callback and an empty queue, the wait returns within
`readsBound` clock reads when every reading differs from `lastTick`. -/
theorem delay_returns_within (env : Env) (n t : Nat) (w : World)
    (hlast : w.lastTick < TICK_MOD) (hcb : w.tinyTicksEventLoopCallback = 0)
    (hq : ∀ i, (w.tinyEventQueue i).proc = 0)
    (hn : readsBound t w.lastTick ≤ n) (hmove : keepsMoving env n t w = true) :
    ∃ w', tinyTicksDelayInTicks env n t w = some w' ∧
      w'.polls ≤ w.polls + readsBound t w.lastTick := by
  induction n generalizing t w with
  | zero =>
    have := readsBound_pos t w.lastTick
    omega
  | succ n ih =>
    unfold keepsMoving at hmove
    rw [Bool.and_eq_true, decide_eq_true_eq] at hmove
    obtain ⟨hne, htail⟩ := hmove
    obtain ⟨hrq, hrl, _, hrcb⟩ := readTick_frame env w
    have hcur := readTick_curTick_lt env w
    by_cases hge : t ≤ tickDiff (readTick env w).curTick w.lastTick
    · refine ⟨logTick (readTick env w), ?_, ?_⟩
      · simp only [tinyTicksDelayInTicks, delayIteration_first_check env t w hne hge]
      · have := readsBound_pos t w.lastTick
        show (readTick env w).polls ≤ _
        rw [readTick_polls]
        omega
    · have hlt : tickDiff (readTick env w).curTick w.lastTick < t := Nat.not_le.mp hge
      have hit := delayIteration_bare env t w hcb hq hne hlt
      rw [hit] at htail
      have hstep := readsBound_step t (readTick env w).curTick w.lastTick hcur hlast hlt
      obtain ⟨w', hw', hpolls⟩ := ih (t - tickDiff (readTick env w).curTick w.lastTick)
        (logTick (readTick env w)) hcur (by rw [(logTick_frame _).2.2.1, hrcb, hcb])
        (by
          intro i
          rw [(logTick_frame _).1, hrq]
          exact hq i)
        (by
          show readsBound _ (readTick env w).curTick ≤ n
          omega)
        htail
      refine ⟨w', ?_, ?_⟩
      · simp only [tinyTicksDelayInTicks, hit]
        exact hw'
      · have hp : (logTick (readTick env w)).polls = w.polls + 1 := readTick_polls env w
        have hl2 : (logTick (readTick env w)).lastTick = (readTick env w).curTick := rfl
        rw [hp, hl2] at hpolls
        omega

/-- C17: with no per-iteration callback and an empty queue, when every reading
differs from the `lastTick` it is compared with, `tinyTicksDelayInTicks(T)`
returns within `2 * T + 1` loop iterations, having read the clock at most
`2 * T + 1` times.  An elapsed value of 0 is measured only for `lastTick = 0xFFFF`
and the reading 0, and the measurement that follows it is then not 0. -/
theorem delay_returns_when_clock_moves (env : Env) (T : Nat) (w : World)
    (hlast : w.lastTick < TICK_MOD) (hcb : w.tinyTicksEventLoopCallback = 0)
    (hq : ∀ i, (w.tinyEventQueue i).proc = 0)
    (hmove : keepsMoving env (2 * T + 1) T w = true) :
    (∃ w', tinyTicksDelayInTicks env (2 * T + 1) T w = some w' ∧
      w'.polls ≤ w.polls + (2 * T + 1)) ∧
    (∀ cur last, cur < TICK_MOD → last < TICK_MOD → cur ≠ last →
      (tickDiff cur last = 0 ↔ last = 65535 ∧ cur = 0)) ∧
    (∀ cur last next, cur < TICK_MOD → last < TICK_MOD → next < TICK_MOD →
      tickDiff cur last = 0 → tickDiff next cur ≠ 0) := by
  refine ⟨?_, fun cur last hc hl _ => tickDiff_eq_zero_iff cur last hc hl, ?_⟩
  · obtain ⟨w', hw', hp⟩ := delay_returns_within env (2 * T + 1) T w hlast hcb hq
      (readsBound_le T w.lastTick) hmove
    have := readsBound_le T w.lastTick
    exact ⟨w', hw', by omega⟩
  · intro cur last next hc hl hn h0 h1
    have hz := (tickDiff_eq_zero_iff cur last hc hl).mp h0
    have hz2 := (tickDiff_eq_zero_iff next cur hn hc).mp h1
    omega

/-- C17 on a concrete run: a wait for 2 ticks starting with `lastTick = 0xFFFF`
and one tick before every read measures 0, 1 and 1 and returns after three
reads. -/
theorem delay_returns_when_clock_moves_witness :
    (wrapWorld.lastTick < TICK_MOD ∧ wrapWorld.tinyTicksEventLoopCallback = 0 ∧
      (∀ i, (wrapWorld.tinyEventQueue i).proc = 0) ∧
      keepsMoving tickEnv (2 * 2 + 1) 2 wrapWorld = true) ∧
    (∃ w', tinyTicksDelayInTicks tickEnv (2 * 2 + 1) 2 wrapWorld = some w' ∧
      w'.polls ≤ wrapWorld.polls + (2 * 2 + 1)) ∧
    tickDiff (readTick tickEnv wrapWorld).curTick wrapWorld.lastTick = 0 ∧
    (tinyTicksDelayInTicks tickEnv (2 * 2 + 1) 2 wrapWorld).map (fun w => w.polls) = some 3 :=
  ⟨by decide,
    (delay_returns_when_clock_moves tickEnv 2 wrapWorld (by decide) (by decide) (by decide)
      (by decide)).1,
    by decide, by decide⟩

end TinyTicks
